import Mathlib

/-!
The libproxy `ignore_ip` plugin: rule matching on IP destinations.

A shallow embedding of `src/plugins/ignore_ip.c`.  C strings are lists of
characters (the bytes before the terminating NUL), pointers that may be
`NULL` are `Option`s, unsigned machine integers are `Nat` reduced modulo
their width and signed ones are `Int`.  A value that C leaves undefined (the
result of a shift by the full width of the type) has no representation, and a
call that reads such a value has no result (`none` at the outermost `Option`).
-/

namespace IgnoreIp

/-! ## Data model -/

/-- Value of the address family tag `AF_INET` (Linux). -/
abbrev AF_INET : Nat := 2

/-- Value of the address family tag `AF_INET6` (Linux). -/
abbrev AF_INET6 : Nat := 10

/-- A `struct sockaddr` as the plugin uses it: the family tag and the bytes of
`sin_addr` (4 bytes) or `sin6_addr` (16 bytes) in memory order. -/
structure sockaddr where
  sa_family : Nat
  addr : List Nat
  deriving DecidableEq, Repr

/-- Byte `i` of the address field, `data[i]` in the C code. -/
def sockaddr.byte (s : sockaddr) (i : Nat) : Nat := s.addr.getD i 0

/-- Modelled from the spec: the `pxURL` type is declared outside `src/`; the
destination is "the already-resolved network address" (absent when the host is
not an IP literal) "and the destination port as an unsigned integer". -/
structure pxURL where
  ip : Option sockaddr
  port : Nat
  deriving DecidableEq, Repr

/-- Modelled from the spec: `px_url_get_ip_no_dns` is defined outside `src/`;
it returns the pre-resolved address of the destination, or `NULL`. -/
def px_url_get_ip_no_dns (url : pxURL) : Option sockaddr := url.ip

/-- Modelled from the spec: `px_url_get_port` is defined outside `src/`; it
returns the destination port. -/
def px_url_get_port (url : pxURL) : Nat := url.port

/-! ## C library functions used by the plugin -/

/-- C `isdigit` in the C locale. -/
def isdigit (c : Char) : Bool := 48 ≤ c.toNat && c.toNat ≤ 57

/-- C `isspace` in the C locale: space, and `\t \n \v \f \r`. -/
def isspace (c : Char) : Bool := c.toNat == 32 || (9 ≤ c.toNat && c.toNat ≤ 13)

/-- `strchr(s, ch) - s`: the offset of the first occurrence of `ch`, `none` for `NULL`. -/
def strchr : List Char → Char → Option Nat
  | [], _ => none
  | c :: s, ch => if c = ch then some 0 else (strchr s ch).map (· + 1)

/-- `strrchr(s, ch) - s`: the offset of the last occurrence of `ch`, `none` for `NULL`. -/
def strrchr : List Char → Char → Option Nat
  | [], _ => none
  | c :: s, ch =>
    match strrchr s ch with
    | some k => some (k + 1)
    | none => if c = ch then some 0 else none

/-- The main loop of `inet_pton4`: `done` holds the octets already completed,
`cur` is `*tp`, the octet being read. -/
def inet_pton4_loop : List Char → List Nat → Nat → Bool → Nat → Option (List Nat)
  | [], done, cur, _, octets => if octets < 4 then none else some (done ++ [cur])
  | ch :: src, done, cur, saw_digit, octets =>
    if isdigit ch then
      let new := cur * 10 + (ch.toNat - 48)
      if saw_digit && cur == 0 then none
      else if new > 255 then none
      else if !saw_digit then
        if octets + 1 > 4 then none
        else inet_pton4_loop src done new true (octets + 1)
      else inet_pton4_loop src done new saw_digit octets
    else if ch = '.' && saw_digit then
      if octets = 4 then none
      else inet_pton4_loop src (done ++ [cur]) 0 false octets
    else none

/-- `inet_pton(AF_INET, src, dst) > 0`, returning the four bytes written to `dst`:
dotted decimal, four octets of at most 255 without leading zeros. -/
def inet_pton4 (src : List Char) : Option (List Nat) :=
  inet_pton4_loop src [] 0 false 0

/-- Value of a hexadecimal digit, `none` for any other character. -/
def hex_digit_value (ch : Char) : Option Nat :=
  if 48 ≤ ch.toNat && ch.toNat ≤ 57 then some (ch.toNat - 48)
  else if 97 ≤ ch.toNat && ch.toNat ≤ 102 then some (ch.toNat - 97 + 10)
  else if 65 ≤ ch.toNat && ch.toNat ≤ 70 then some (ch.toNat - 65 + 10)
  else none

/-- The tail of `inet_pton6` after its loop: store a pending group, expand `::`
and require that all 16 bytes are filled. -/
def inet_pton6_finish (xdigits_seen val : Nat) (tp : List Nat) (colonp : Option Nat) :
    Option (List Nat) :=
  if 0 < xdigits_seen && tp.length + 2 > 16 then none
  else
    let tp := if 0 < xdigits_seen then tp ++ [val / 256 % 256, val % 256] else tp
    match colonp with
    | some c =>
      if tp.length = 16 then none
      else some (tp.take c ++ List.replicate (16 - tp.length) 0 ++ tp.drop c)
    | none => if tp.length = 16 then some tp else none

/-- The main loop of `inet_pton6`: `curtok` holds the characters read since the
start of the current group, `tp` the bytes written so far, `colonp` the offset
in the output at which `::` was seen. -/
def inet_pton6_loop :
    List Char → List Char → Nat → Nat → List Nat → Option Nat → Option (List Nat)
  | [], _, xdigits_seen, val, tp, colonp => inet_pton6_finish xdigits_seen val tp colonp
  | ch :: src, curtok, xdigits_seen, val, tp, colonp =>
    match hex_digit_value ch with
    | some digit =>
      if xdigits_seen = 4 then none
      else if val * 16 + digit > 0xffff then none
      else inet_pton6_loop src (curtok ++ [ch]) (xdigits_seen + 1) (val * 16 + digit) tp colonp
    | none =>
      if ch = ':' then
        if xdigits_seen = 0 then
          if colonp.isSome then none
          else inet_pton6_loop src [] xdigits_seen val tp (some tp.length)
        else if src.isEmpty then none
        else if tp.length + 2 > 16 then none
        else inet_pton6_loop src [] 0 0 (tp ++ [val / 256 % 256, val % 256]) colonp
      else if ch = '.' && tp.length + 4 ≤ 16 then
        match inet_pton4 (curtok ++ ch :: src) with
        | some quad => inet_pton6_finish 0 val (tp ++ quad) colonp
        | none => none
      else none

/-- `inet_pton(AF_INET6, src, dst) > 0`, returning the sixteen bytes written to
`dst`: groups of up to four hexadecimal digits separated by colons, at most one
`::`, optionally a trailing dotted quad. -/
def inet_pton6 (src : List Char) : Option (List Nat) :=
  match src with
  | [] => none
  | ch :: rest =>
    if ch = ':' then
      match rest with
      | [] => none
      | ch2 :: _ => if ch2 = ':' then inet_pton6_loop rest [] 0 0 [] none else none
    else inet_pton6_loop src [] 0 0 [] none

/-- Value of the leading run of decimal digits of `s`, continuing from `acc`. -/
def scan_digits : List Char → Nat → Nat
  | [], acc => acc
  | c :: s, acc => if isdigit c then scan_digits s (acc * 10 + (c.toNat - 48)) else acc

/-- Drop leading white space, as every `scanf` numeric conversion does. -/
def skip_space : List Char → List Char
  | [] => []
  | c :: s => if isspace c then skip_space s else c :: s

/-- The integer a `scanf` numeric conversion reads: optional white space, an
optional sign and at least one decimal digit.  Returns the sign and the
magnitude, `none` when the conversion fails. -/
def scan_int (s : List Char) : Option (Bool × Nat) :=
  match skip_space s with
  | [] => none
  | c :: t =>
    if c = '-' || c = '+' then
      match t with
      | [] => none
      | d :: _ => if isdigit d then some (c = '-', scan_digits t 0) else none
    else if isdigit c then some (false, scan_digits (c :: t) 0)
    else none

/-- `sscanf(s, "%d", &x) == 1` with `x` a 32-bit object: the bit pattern stored
in `x`.  The value is read as a `long` (saturating) and truncated to 32 bits. -/
def sscanf_d (s : List Char) : Option Nat :=
  (scan_int s).map fun r =>
    let v : Int := if r.1 then -(r.2 : Int) else (r.2 : Int)
    let l : Int := max (-(2 : Int) ^ 63) (min v ((2 : Int) ^ 63 - 1))
    (l % (2 : Int) ^ 32).toNat

/-- `sscanf(s, ":%u", &x) == 1` with `x` a `uint32_t`: the value stored in `x`.
The value is read as an `unsigned long` (saturating, a minus sign negates
modulo `2^64`) and truncated to 32 bits. -/
def sscanf_colon_u (s : List Char) : Option Nat :=
  match s with
  | [] => none
  | c :: t =>
    if c = ':' then
      (scan_int t).map fun r =>
        let m : Nat := min r.2 (2 ^ 64 - 1)
        let ul : Nat := if r.2 > 2 ^ 64 - 1 then 2 ^ 64 - 1
          else if r.1 then (2 ^ 64 - m) % 2 ^ 64 else m
        ul % 2 ^ 32
    else none

/-- `htonl(v)` stored in memory: the four bytes of `v`, most significant first. -/
def htonl (v : Nat) : List Nat :=
  [v / 2 ^ 24 % 256, v / 2 ^ 16 % 256, v / 2 ^ 8 % 256, v % 256]

/-- C `x << c` on `int` (32 bits).  The behaviour is undefined when `c` is
negative or at least the width of the type (C11 6.5.7p3); there is then no
result.  Otherwise the result is the shifted two's complement bit pattern. -/
def int_shl (x : Int) (c : Int) : Option Int :=
  if 0 ≤ c ∧ c < 32 then some (Int.bmod (x * 2 ^ c.toNat) (2 ^ 32)) else none

/-! ## The plugin -/

/-- The comparison loop of `_sockaddr_equals`, `n` iterations left from index `i`. -/
def _sockaddr_equals_loop (a_data b_data : List Nat) (nm_data : Option (List Nat)) :
    Nat → Nat → Bool
  | 0, _ => true
  | n + 1, i =>
    match nm_data with
    | some nm =>
      if (a_data.getD i 0 &&& nm.getD i 0) ≠ (b_data.getD i 0 &&& nm.getD i 0) then false
      else _sockaddr_equals_loop a_data b_data nm_data n (i + 1)
    | none =>
      if a_data.getD i 0 ≠ b_data.getD i 0 then false
      else _sockaddr_equals_loop a_data b_data nm_data n (i + 1)

/-- Source: `_sockaddr_equals`. -/
def _sockaddr_equals (ip_a ip_b nm : Option sockaddr) : Bool :=
  match ip_a, ip_b with
  | some a, some b =>
    if a.sa_family ≠ b.sa_family then false
    else if (match nm with | some m => decide (a.sa_family ≠ m.sa_family) | none => false) then false
    else if a.sa_family = AF_INET then
      _sockaddr_equals_loop a.addr b.addr (nm.map sockaddr.addr) (32 / 8) 0
    else if a.sa_family = AF_INET6 then
      _sockaddr_equals_loop a.addr b.addr (nm.map sockaddr.addr) (128 / 8) 0
    else false
  | _, _ => false

/-- Source: `_sockaddr_from_string`.  `len < 0` parses the whole string. -/
def _sockaddr_from_string (ip : Option (List Char)) (len : Int) : Option sockaddr :=
  match ip with
  | none => none
  | some ip =>
    let ip := if len ≥ 0 then ip.take len.toNat else ip
    match inet_pton4 ip with
    | some b => some ⟨AF_INET, b⟩
    | none =>
      match inet_pton6 ip with
      | some b => some ⟨AF_INET6, b⟩
      | none => none

/-- One byte of the IPv6 mask: the right-hand side of the assignment in the loop
of `_sockaddr_from_cidr`, converted to `uint8_t`. -/
def _sockaddr_from_cidr_byte (cidr i : Nat) : Option Nat :=
  let k : Int :=
    if 8 * (i : Int) > (cidr : Int) then 0
    else if (cidr : Int) - 8 * (i : Int) < 8 then (cidr : Int) - 8 * (i : Int) else 8
  (int_shl (-1) (8 - k)).map fun v => (v % 256).toNat

/-- The IPv6 loop of `_sockaddr_from_cidr`, `n` iterations left from index `i`. -/
def _sockaddr_from_cidr_loop (cidr : Nat) : Nat → Nat → Option (List Nat)
  | 0, _ => some []
  | n + 1, i =>
    match _sockaddr_from_cidr_byte cidr i with
    | none => none
    | some b => (_sockaddr_from_cidr_loop cidr n (i + 1)).map (b :: ·)

/-- Source: `_sockaddr_from_cidr`; `cidr` is a `uint8_t`.  The outer `Option`
is `none` when the address bytes of the mask have no defined value (the mask
object itself exists and has the family `af`), the inner one when the function
returns `NULL`. -/
def _sockaddr_from_cidr (af : Nat) (cidr : Nat) : Option (Option sockaddr) :=
  if af = AF_INET then
    (int_shl (-1) (32 - (if cidr > 32 then 32 else (cidr : Int)))).map fun v =>
      some ⟨af, htonl (v % (2 : Int) ^ 32).toNat⟩
  else if af = AF_INET6 then
    (_sockaddr_from_cidr_loop cidr 16 0).map fun bytes => some ⟨af, bytes⟩
  else some none

/-- The code of `_ignore` at its label `out`. -/
def _ignore_out (url : pxURL) (dst_ip ign_ip net_ip : Option sockaddr) (port : Nat) : Bool :=
  let result := _sockaddr_equals dst_ip ign_ip net_ip
  if port ≠ 0 then (port == px_url_get_port url && result) else result

/-- The third step of `_ignore`: `IPv4:port` and `[IPv6]:port`. -/
def _ignore_port (url : pxURL) (dst_ip : Option sockaddr) (ignore : List Char) : Bool :=
  match strrchr ignore ':' with
  | none => _ignore_out url dst_ip none none 0
  | some k =>
    match sscanf_colon_u (ignore.drop k) with
    | none => _ignore_out url dst_ip none none 0
    | some port =>
      if port > 0 then
        let ign_ip := _sockaddr_from_string (some ignore) k
        match ign_ip with
        | some ign =>
          if ign.sa_family ≠ AF_INET6 || ignore.head? == some '[' then
            _ignore_out url dst_ip ign_ip none port
          else _ignore_out url dst_ip none none 0
        | none => _ignore_out url dst_ip none none 0
      else _ignore_out url dst_ip none none 0

/-- Source: `_sockaddr_equals`, called with a mask of family `nm_family` whose
address bytes have no defined value.  The tests in front of the loop do not
read the mask bytes and are those of `_sockaddr_equals`; the first iteration
of the loop reads them, so a call that reaches the loop has no result. -/
def _sockaddr_equals_undefined_mask (ip_a ip_b : Option sockaddr) (nm_family : Nat) :
    Option Bool :=
  match ip_a, ip_b with
  | some a, some b =>
    if a.sa_family ≠ b.sa_family then some false
    else if a.sa_family ≠ nm_family then some false
    else if a.sa_family = AF_INET then none
    else if a.sa_family = AF_INET6 then none
    else some false
  | _, _ => some false

/-- Outcome of the second step of `_ignore`. -/
inductive network_step where
  /-- The step is skipped or abandoned; `ign_ip` and `net_ip` are `NULL` again. -/
  | fallthrough
  /-- The step jumps to `out` with this address and this mask. -/
  | candidate (ign_ip net_ip : sockaddr)
  /-- The step jumps to `out` with this address and a mask of its family whose
  address bytes have no defined value. -/
  | undefined_mask (ign_ip : sockaddr)
  deriving DecidableEq, Repr

/-- The second step of `_ignore`: `address/prefix` and `address/netmask`. -/
def _ignore_network (ignore : List Char) : network_step :=
  match strchr ignore '/' with
  | none => network_step.fallthrough
  | some k =>
    let ign_ip := _sockaddr_from_string (some ignore) k
    let net_ip := _sockaddr_from_string (some (ignore.drop (k + 1))) (-1)
    match ign_ip, net_ip with
    | some ign, none =>
      match sscanf_d (ignore.drop (k + 1)) with
      | some cidr =>
        match _sockaddr_from_cidr ign.sa_family (cidr % 256) with
        | none => network_step.undefined_mask ign
        | some (some net) =>
          if ign.sa_family = net.sa_family then network_step.candidate ign net
          else network_step.fallthrough
        | some none => network_step.fallthrough
      | none => network_step.fallthrough
    | some ign, some net =>
      if ign.sa_family = net.sa_family then network_step.candidate ign net
      else network_step.fallthrough
    | none, _ => network_step.fallthrough

/-- Source: `_ignore` (its unused `self` argument is left out).  `none` means
that the call reads a value that C leaves undefined. -/
def _ignore (url : Option pxURL) (ignore : Option (List Char)) : Option Bool :=
  match url, ignore with
  | some url, some ignore =>
    let dst_ip := px_url_get_ip_no_dns url
    match _sockaddr_from_string (some ignore) (-1) with
    | some ign_ip => some (_ignore_out url dst_ip (some ign_ip) none 0)
    | none =>
      match _ignore_network ignore with
      | network_step.undefined_mask ign_ip =>
        _sockaddr_equals_undefined_mask dst_ip (some ign_ip) ign_ip.sa_family
      | network_step.candidate ign_ip net_ip =>
        some (_ignore_out url dst_ip (some ign_ip) (some net_ip) 0)
      | network_step.fallthrough => some (_ignore_port url dst_ip ignore)
  | _, _ => some false

/-- The destination with address `d` and port `q`. -/
def dest (d : sockaddr) (q : Nat) : Option pxURL := some ⟨some d, q⟩

/-- Width in bytes of an address of family `af`. -/
def addr_bytes (af : Nat) : Nat := if af = AF_INET then 4 else 16

/-- Bit `j` of an address, counted from the most significant bit of byte 0. -/
def sockaddr.bit (s : sockaddr) (j : Nat) : Bool := (s.byte (j / 8)).testBit (7 - j % 8)

/-- Specification of a prefix mask, in the words of the spec ("leading `prefix`
bits are 1 and remaining bits are 0"): byte `i` of the mask of prefix length
`p` is `0xFF` when it lies wholly inside the prefix, `0x00` when it lies wholly
outside, and otherwise has its top `p - 8 * i` bits set. -/
def prefix_mask_byte (p i : Nat) : Nat :=
  if 8 * (i + 1) ≤ p then 0xFF
  else if p ≤ 8 * i then 0x00
  else 256 - 2 ^ (8 - (p - 8 * i))

/-- Specification of the mask of prefix length `p` over `n` bytes. -/
def prefix_mask (p n : Nat) : List Nat := (List.range n).map (prefix_mask_byte p)

/-- The rule text `A/n` with `n` written in decimal. -/
def cidr_rule (A : List Char) (n : Nat) : List Char := A ++ '/' :: Nat.toDigits 10 n

/-- The rule text `A:p` with `p` written in decimal. -/
def port_rule (A : List Char) (p : Nat) : List Char := A ++ ':' :: Nat.toDigits 10 p

/-! ## The comparison helper -/

theorem sockaddr_equals_loop_iff (a b : List Nat) (nm : Option (List Nat)) (n : Nat) :
    ∀ i, _sockaddr_equals_loop a b nm n i = true ↔
      ∀ j, i ≤ j → j < i + n →
        (match nm with
          | some m => a.getD j 0 &&& m.getD j 0 = b.getD j 0 &&& m.getD j 0
          | none => a.getD j 0 = b.getD j 0) := by
  induction n with
  | zero => intro i; simp [_sockaddr_equals_loop]; intro j h1 h2; omega
  | succ n ih =>
    intro i
    cases nm with
    | none =>
      simp only [_sockaddr_equals_loop]
      by_cases h : a.getD i 0 = b.getD i 0
      · simp only [h, ne_eq, not_true_eq_false, if_false]
        rw [ih]
        constructor
        · intro H j h1 h2
          rcases Nat.eq_or_lt_of_le h1 with e | l
          · subst e; exact h
          · exact H j l (by omega)
        · intro H j h1 h2
          exact H j (by omega) (by omega)
      · simp only [h, ne_eq, not_false_eq_true, if_true]
        constructor
        · intro H; cases H
        · intro H; exact absurd (H i (Nat.le_refl i) (by omega)) h
    | some m =>
      simp only [_sockaddr_equals_loop]
      by_cases h : a.getD i 0 &&& m.getD i 0 = b.getD i 0 &&& m.getD i 0
      · simp only [h, ne_eq, not_true_eq_false, if_false]
        rw [ih]
        constructor
        · intro H j h1 h2
          rcases Nat.eq_or_lt_of_le h1 with e | l
          · subst e; exact h
          · exact H j l (by omega)
        · intro H j h1 h2
          exact H j (by omega) (by omega)
      · simp only [h, ne_eq, not_false_eq_true, if_true]
        constructor
        · intro H; cases H
        · intro H; exact absurd (H i (Nat.le_refl i) (by omega)) h

/-- Exact comparison of two present addresses of a supported family. -/
theorem sockaddr_equals_exact (D L : sockaddr)
    (hL : L.sa_family = AF_INET ∨ L.sa_family = AF_INET6) :
    _sockaddr_equals (some D) (some L) none =
      decide (D.sa_family = L.sa_family ∧
        ∀ i, i < addr_bytes L.sa_family → D.byte i = L.byte i) := by
  rw [Bool.eq_iff_iff]
  simp only [decide_eq_true_eq]
  unfold _sockaddr_equals
  by_cases hf : D.sa_family = L.sa_family
  · rcases hL with h4 | h6
    · have hD : D.sa_family = AF_INET := hf.trans h4
      simp [hf, h4, sockaddr_equals_loop_iff, addr_bytes, sockaddr.byte]
    · have hD : D.sa_family = AF_INET6 := hf.trans h6
      simp [hf, h6, sockaddr_equals_loop_iff, addr_bytes, sockaddr.byte]
  · simp [hf]

/-- Masked comparison of two present addresses under a present mask of the
family of the second address. -/
theorem sockaddr_equals_masked (D L M : sockaddr)
    (hL : L.sa_family = AF_INET ∨ L.sa_family = AF_INET6) (hM : L.sa_family = M.sa_family) :
    _sockaddr_equals (some D) (some L) (some M) =
      decide (D.sa_family = L.sa_family ∧
        ∀ i, i < addr_bytes L.sa_family → D.byte i &&& M.byte i = L.byte i &&& M.byte i) := by
  rw [Bool.eq_iff_iff]
  simp only [decide_eq_true_eq]
  unfold _sockaddr_equals
  by_cases hf : D.sa_family = L.sa_family
  · rcases hL with h4 | h6
    · have hM4 : M.sa_family = AF_INET := hM.symm.trans h4
      simp [hf, h4, hM4, sockaddr_equals_loop_iff, addr_bytes, sockaddr.byte]
    · have hM6 : M.sa_family = AF_INET6 := hM.symm.trans h6
      simp [hf, h6, hM6, sockaddr_equals_loop_iff, addr_bytes, sockaddr.byte]
  · simp [hf]

theorem sockaddr_from_string_family (s : Option (List Char)) (len : Int) (L : sockaddr)
    (h : _sockaddr_from_string s len = some L) :
    L.sa_family = AF_INET ∨ L.sa_family = AF_INET6 := by
  unfold _sockaddr_from_string at h
  cases s with
  | none => simp at h
  | some ip =>
    simp only at h
    split at h
    · left; cases h; rfl
    · split at h
      · right; cases h; rfl
      · cases h

/-! ## Bare addresses -/

/-- The bare-address step: a rule text that is an address literal `L` is
compared exactly with the destination address. -/
theorem bare_address_rule (s : List Char) (L D : sockaddr) (q : Nat)
    (h : _sockaddr_from_string (some s) (-1) = some L) :
    _ignore (dest D q) (some s) =
      some (decide (D.sa_family = L.sa_family ∧
        ∀ i, i < addr_bytes L.sa_family → D.byte i = L.byte i)) := by
  have hL := sockaddr_from_string_family _ _ _ h
  have key : _ignore (dest D q) (some s) =
      some (_sockaddr_equals (some D) (some L) none) := by
    simp [_ignore, dest, h, _ignore_out, px_url_get_ip_no_dns]
  rw [key, sockaddr_equals_exact D L hL]

/-- C1: when the whole rule text parses as an address literal `L`, `_ignore`
returns true exactly for the destinations whose address has the family of `L`
and the same bytes, whatever the port; in particular it returns true for the
destination that holds `L` itself. -/
theorem C1_bare_address (s : List Char) (L D : sockaddr) (q : Nat)
    (h : _sockaddr_from_string (some s) (-1) = some L) :
    _ignore (dest D q) (some s) =
        some (decide (D.sa_family = L.sa_family ∧
          ∀ i, i < addr_bytes L.sa_family → D.byte i = L.byte i)) ∧
      _ignore (dest L q) (some s) = some true := by
  refine ⟨bare_address_rule s L D q h, ?_⟩
  rw [bare_address_rule s L L q h]
  simp

/-- C1 at the rule `1::2:3` and the destination `1::2:4` port 80. -/
theorem C1_bare_address_witness :
    _sockaddr_from_string (some "1::2:3".toList) (-1) =
        some ⟨AF_INET6, [0, 1, 0, 0, 0, 0, 0, 0, 0, 0, 0, 0, 0, 2, 0, 3]⟩ ∧
      _ignore (dest ⟨AF_INET6, [0, 1, 0, 0, 0, 0, 0, 0, 0, 0, 0, 0, 0, 2, 0, 4]⟩ 80)
        (some "1::2:3".toList) = some false ∧
      _ignore (dest ⟨AF_INET6, [0, 1, 0, 0, 0, 0, 0, 0, 0, 0, 0, 0, 0, 2, 0, 3]⟩ 80)
        (some "1::2:3".toList) = some true :=
  ⟨by decide,
   (C1_bare_address "1::2:3".toList ⟨AF_INET6, [0, 1, 0, 0, 0, 0, 0, 0, 0, 0, 0, 0, 0, 2, 0, 3]⟩
     ⟨AF_INET6, [0, 1, 0, 0, 0, 0, 0, 0, 0, 0, 0, 0, 0, 2, 0, 4]⟩ 80 (by decide)).1.trans
     (by decide),
   (C1_bare_address "1::2:3".toList ⟨AF_INET6, [0, 1, 0, 0, 0, 0, 0, 0, 0, 0, 0, 0, 0, 2, 0, 3]⟩
     ⟨AF_INET6, [0, 1, 0, 0, 0, 0, 0, 0, 0, 0, 0, 0, 0, 2, 0, 4]⟩ 80 (by decide)).2⟩

/-! ## Facts about the address parsers -/

theorem isdigit_hex (c : Char) (h : isdigit c = true) : (hex_digit_value c).isSome = true := by
  unfold isdigit at h
  unfold hex_digit_value
  rw [if_pos h]
  rfl

theorem inet_pton4_loop_chars : ∀ (src : List Char) (done : List Nat) (cur : Nat) (sd : Bool)
    (oct : Nat) (b : List Nat), inet_pton4_loop src done cur sd oct = some b →
    ∀ c ∈ src, isdigit c = true ∨ c = '.' := by
  intro src
  induction src with
  | nil => intro _ _ _ _ _ _ c hc; cases hc
  | cons ch src ih =>
    intro done cur sd oct b h c hc
    rw [inet_pton4_loop] at h
    by_cases hd : isdigit ch = true
    · rw [if_pos hd] at h
      rcases List.mem_cons.1 hc with e | hm
      · left; rw [e]; exact hd
      · simp only at h
        split at h
        · cases h
        · split at h
          · cases h
          · split at h
            · split at h
              · cases h
              · exact ih _ _ _ _ _ h c hm
            · exact ih _ _ _ _ _ h c hm
    · rw [if_neg hd] at h
      split at h
      · rename_i hdot
        have hch : ch = '.' := by
          simp only [Bool.and_eq_true, decide_eq_true_eq] at hdot
          exact hdot.1
        rcases List.mem_cons.1 hc with e | hm
        · right; rw [e]; exact hch
        · split at h
          · cases h
          · exact ih _ _ _ _ _ h c hm
      · cases h

theorem inet_pton4_loop_length : ∀ (src : List Char) (done : List Nat) (cur : Nat) (sd : Bool)
    (oct : Nat) (b : List Nat), inet_pton4_loop src done cur sd oct = some b →
    done.length + (if sd = true then 1 else 0) = oct → (sd = false → oct < 4) → oct ≤ 4 →
    b.length = 4 := by
  intro src
  induction src with
  | nil =>
    intro done cur sd oct b h hinv hsd hle
    rw [inet_pton4_loop] at h
    split at h
    · cases h
    · cases sd with
      | false => have := hsd rfl; omega
      | true =>
        cases h
        simp at hinv
        simp
        omega
  | cons ch src ih =>
    intro done cur sd oct b h hinv hsd hle
    rw [inet_pton4_loop] at h
    split at h
    · simp only at h
      split at h
      · cases h
      · split at h
        · cases h
        · split at h
          · rename_i hns
            have hsdf : sd = false := by simpa using hns
            subst hsdf
            split at h
            · cases h
            · refine ih _ _ _ _ _ h ?_ ?_ ?_
              · simpa using hinv
              · intro hc; cases hc
              · omega
          · rename_i hns
            have hsdt : sd = true := by simpa using hns
            subst hsdt
            exact ih _ _ _ _ _ h hinv hsd hle
    · split at h
      · rename_i hdot
        have hsdt : sd = true := by
          simp only [Bool.and_eq_true, decide_eq_true_eq] at hdot
          exact hdot.2
        subst hsdt
        split at h
        · cases h
        · refine ih _ _ _ _ _ h ?_ ?_ ?_
          · simpa using hinv
          · intro _; omega
          · exact hle
      · cases h

theorem inet_pton4_length (s : List Char) (b : List Nat) (h : inet_pton4 s = some b) :
    b.length = 4 :=
  inet_pton4_loop_length s [] 0 false 0 b h rfl (fun _ => by decide) (by decide)

theorem inet_pton4_chars (s : List Char) (b : List Nat) (h : inet_pton4 s = some b) :
    ∀ c ∈ s, isdigit c = true ∨ c = '.' :=
  inet_pton4_loop_chars s [] 0 false 0 b h

theorem inet_pton4_loop_no_dot : ∀ (src : List Char) (done : List Nat) (cur : Nat) (sd : Bool)
    (oct : Nat), '.' ∉ src → oct + (if sd = true then 0 else 1) ≤ 3 →
    inet_pton4_loop src done cur sd oct = none := by
  intro src
  induction src with
  | nil =>
    intro done cur sd oct _ hinv
    rw [inet_pton4_loop]
    have : oct < 4 := by split at hinv <;> omega
    simp [this]
  | cons ch src ih =>
    intro done cur sd oct hnd hinv
    have hch : ch ≠ '.' := fun e => hnd (by rw [e]; exact List.mem_cons_self _ _)
    have hsrc : '.' ∉ src := fun m => hnd (List.mem_cons_of_mem _ m)
    rw [inet_pton4_loop]
    split
    · simp only
      split
      · rfl
      · split
        · rfl
        · split
          · rename_i hns
            have hsdf : sd = false := by simpa using hns
            subst hsdf
            split
            · rfl
            · exact ih _ _ _ _ hsrc (by simpa using hinv)
          · rename_i hns
            have hsdt : sd = true := by simpa using hns
            subst hsdt
            exact ih _ _ _ _ hsrc hinv
    · simp [hch]

/-- A text without a dot is not an IPv4 literal. -/
theorem inet_pton4_no_dot (s : List Char) (h : '.' ∉ s) : inet_pton4 s = none :=
  inet_pton4_loop_no_dot s [] 0 false 0 h (by decide)

theorem inet_pton6_loop_chars : ∀ (src curtok : List Char) (xd val : Nat) (tp : List Nat)
    (colonp : Option Nat) (b : List Nat),
    inet_pton6_loop src curtok xd val tp colonp = some b →
    ∀ c ∈ src, (hex_digit_value c).isSome = true ∨ c = ':' ∨ c = '.' := by
  intro src
  induction src with
  | nil => intro _ _ _ _ _ _ _ c hc; cases hc
  | cons ch src ih =>
    intro curtok xd val tp colonp b h c hc
    rw [inet_pton6_loop] at h
    split at h
    · rename_i digit hdig
      rcases List.mem_cons.1 hc with e | hm
      · left; rw [e, hdig]; rfl
      · split at h
        · cases h
        · split at h
          · cases h
          · exact ih _ _ _ _ _ _ h c hm
    · split at h
      · rename_i hcol
        rcases List.mem_cons.1 hc with e | hm
        · right; left; rw [e]; exact hcol
        · split at h
          · split at h
            · cases h
            · exact ih _ _ _ _ _ _ h c hm
          · split at h
            · cases h
            · split at h
              · cases h
              · exact ih _ _ _ _ _ _ h c hm
      · split at h
        · rename_i hdot
          have hch : ch = '.' := by
            simp only [Bool.and_eq_true, decide_eq_true_eq] at hdot
            exact hdot.1
          rcases List.mem_cons.1 hc with e | hm
          · right; right; rw [e]; exact hch
          · split at h
            · rename_i quad hq
              rcases inet_pton4_chars _ _ hq c
                (List.mem_append_right _ (List.mem_cons_of_mem _ hm)) with hd | hd
              · left; exact isdigit_hex c hd
              · right; right; exact hd
            · cases h
        · cases h

/-- In an accepted IPv6 text only digits and dots follow a dot. -/
theorem inet_pton6_loop_after_dot : ∀ (src curtok : List Char) (xd val : Nat) (tp : List Nat)
    (colonp : Option Nat) (b : List Nat),
    inet_pton6_loop src curtok xd val tp colonp = some b →
    ∀ pre post, src = pre ++ '.' :: post → ∀ c ∈ post, isdigit c = true ∨ c = '.' := by
  intro src
  induction src with
  | nil => intro _ _ _ _ _ _ _ pre post e; cases pre <;> cases e
  | cons ch src ih =>
    intro curtok xd val tp colonp b h pre post e c hc
    have hmem : (∃ pre2, src = pre2 ++ '.' :: post) ∨ (ch = '.' ∧ src = post) := by
      cases pre with
      | nil => right; simp at e; exact e
      | cons p pre2 => left; simp at e; exact ⟨pre2, e.2⟩
    rw [inet_pton6_loop] at h
    split at h
    · rename_i digit hdig
      rcases hmem with ⟨pre2, e2⟩ | ⟨e1, _⟩
      · split at h
        · cases h
        · split at h
          · cases h
          · exact ih _ _ _ _ _ _ h pre2 post e2 c hc
      · rw [e1] at hdig; cases hdig
    · split at h
      · rename_i hcol
        rcases hmem with ⟨pre2, e2⟩ | ⟨e1, _⟩
        · split at h
          · split at h
            · cases h
            · exact ih _ _ _ _ _ _ h pre2 post e2 c hc
          · split at h
            · cases h
            · split at h
              · cases h
              · exact ih _ _ _ _ _ _ h pre2 post e2 c hc
        · rw [e1] at hcol; cases hcol
      · split at h
        · split at h
          · rename_i quad hq
            have hin : c ∈ src := by
              rcases hmem with ⟨pre2, e2⟩ | ⟨_, e2⟩
              · rw [e2]; exact List.mem_append_right _ (List.mem_cons_of_mem _ hc)
              · rw [e2]; exact hc
            exact inet_pton4_chars _ _ hq c
              (List.mem_append_right _ (List.mem_cons_of_mem _ hin))
          · cases h
        · cases h

theorem inet_pton6_finish_short (xd val : Nat) (tp : List Nat) (h : tp.length ≤ 4) :
    inet_pton6_finish xd val tp none = none := by
  unfold inet_pton6_finish
  split
  · rfl
  · simp only
    split <;> simp <;> omega

theorem inet_pton6_loop_no_colon : ∀ (src curtok : List Char) (xd val : Nat),
    ':' ∉ src → inet_pton6_loop src curtok xd val [] none = none := by
  intro src
  induction src with
  | nil =>
    intro curtok xd val _
    rw [inet_pton6_loop]
    exact inet_pton6_finish_short _ _ _ (by simp)
  | cons ch src ih =>
    intro curtok xd val hnc
    have hch : ch ≠ ':' := fun e => hnc (by rw [e]; exact List.mem_cons_self _ _)
    have hsrc : ':' ∉ src := fun m => hnc (List.mem_cons_of_mem _ m)
    rw [inet_pton6_loop]
    split
    · split
      · rfl
      · split
        · rfl
        · exact ih _ _ _ hsrc
    · rw [if_neg hch]
      split
      · split
        · rename_i quad hq
          have := inet_pton4_length _ _ hq
          exact inet_pton6_finish_short _ _ _ (by simp [this])
        · rfl
      · rfl

/-- A text without a colon is not an IPv6 literal. -/
theorem inet_pton6_no_colon (s : List Char) (h : ':' ∉ s) : inet_pton6 s = none := by
  unfold inet_pton6
  cases s with
  | nil => rfl
  | cons ch rest =>
    have hch : ch ≠ ':' := fun e => h (by rw [e]; exact List.mem_cons_self _ _)
    simp only [if_neg hch]
    exact inet_pton6_loop_no_colon _ _ _ _ h

theorem inet_pton6_chars (s : List Char) (b : List Nat) (h : inet_pton6 s = some b) :
    ∀ c ∈ s, (hex_digit_value c).isSome = true ∨ c = ':' ∨ c = '.' := by
  unfold inet_pton6 at h
  cases s with
  | nil => cases h
  | cons ch rest =>
    simp only at h
    split at h
    · rename_i hcol
      cases rest with
      | nil => cases h
      | cons ch2 rest2 =>
        simp only at h
        split at h
        · intro c hc
          rcases List.mem_cons.1 hc with e | hm
          · right; left; rw [e]; exact hcol
          · exact inet_pton6_loop_chars _ _ _ _ _ _ _ h c hm
        · cases h
    · exact inet_pton6_loop_chars _ _ _ _ _ _ _ h

/-- In an IPv6 literal only digits and dots follow a dot. -/
theorem inet_pton6_after_dot (s : List Char) (b : List Nat) (h : inet_pton6 s = some b)
    (pre post : List Char) (e : s = pre ++ '.' :: post) :
    ∀ c ∈ post, isdigit c = true ∨ c = '.' := by
  unfold inet_pton6 at h
  cases s with
  | nil => cases h
  | cons ch rest =>
    simp only at h
    split at h
    · rename_i hcol
      cases rest with
      | nil => cases h
      | cons ch2 rest2 =>
        simp only at h
        split at h
        · cases pre with
          | nil => simp at e; rw [e.1] at hcol; cases hcol
          | cons p pre2 =>
            simp at e
            exact inet_pton6_loop_after_dot _ _ _ _ _ _ _ h pre2 post e.2
        · cases h
    · exact inet_pton6_loop_after_dot _ _ _ _ _ _ _ h pre post e

/-- The characters an address literal of either family can contain. -/
theorem sockaddr_from_string_chars (s : List Char) (L : sockaddr)
    (h : _sockaddr_from_string (some s) (-1) = some L) :
    ∀ c ∈ s, (hex_digit_value c).isSome = true ∨ c = ':' ∨ c = '.' := by
  unfold _sockaddr_from_string at h
  simp only [show ¬ ((-1 : Int) ≥ 0) by decide, if_false] at h
  split at h
  · rename_i b hb
    intro c hc
    rcases inet_pton4_chars _ _ hb c hc with hd | hd
    · left; exact isdigit_hex c hd
    · right; right; exact hd
  · split at h
    · rename_i b hb
      exact inet_pton6_chars _ _ hb
    · cases h

/-- A text with a character that no address literal contains is not an address. -/
theorem sockaddr_from_string_bad_char (s : List Char) (c : Char) (hc : c ∈ s)
    (h1 : hex_digit_value c = none) (h2 : c ≠ ':') (h3 : c ≠ '.') :
    _sockaddr_from_string (some s) (-1) = none := by
  cases h : _sockaddr_from_string (some s) (-1) with
  | none => rfl
  | some L =>
    rcases sockaddr_from_string_chars s L h c hc with h' | h' | h'
    · rw [h1] at h'; cases h'
    · exact absurd h' h2
    · exact absurd h' h3

/-! ## Facts about the string helpers -/

theorem strchr_none (s : List Char) (c : Char) (h : c ∉ s) : strchr s c = none := by
  induction s with
  | nil => rfl
  | cons x s ih =>
    have hx : x ≠ c := fun e => h (by rw [e]; exact List.mem_cons_self _ _)
    have hs : c ∉ s := fun m => h (List.mem_cons_of_mem _ m)
    simp [strchr, hx, ih hs]

theorem strchr_append (A r : List Char) (c : Char) (h : c ∉ A) :
    strchr (A ++ c :: r) c = some A.length := by
  induction A with
  | nil => simp [strchr]
  | cons x A ih =>
    have hx : x ≠ c := fun e => h (by rw [e]; exact List.mem_cons_self _ _)
    have hs : c ∉ A := fun m => h (List.mem_cons_of_mem _ m)
    simp [strchr, hx, ih hs]

theorem strrchr_none (s : List Char) (c : Char) (h : c ∉ s) : strrchr s c = none := by
  induction s with
  | nil => rfl
  | cons x s ih =>
    have hx : x ≠ c := fun e => h (by rw [e]; exact List.mem_cons_self _ _)
    have hs : c ∉ s := fun m => h (List.mem_cons_of_mem _ m)
    simp [strrchr, hx, ih hs]

theorem strrchr_append (A r : List Char) (c : Char) (h : c ∉ r) :
    strrchr (A ++ c :: r) c = some A.length := by
  induction A with
  | nil => simp [strrchr, strrchr_none r c h]
  | cons x A ih => simp [strrchr, ih]

/-! ## Decimal numerals -/

theorem isdigit_digitChar (k : Nat) (h : k < 10) :
    isdigit (Nat.digitChar k) = true ∧ (Nat.digitChar k).toNat - 48 = k := by
  interval_cases k <;> exact ⟨by decide, by decide⟩

theorem scan_digits_snoc (pre : List Char) (d : Char) (hd : isdigit d = true)
    (hpre : ∀ c ∈ pre, isdigit c = true) :
    ∀ acc, scan_digits (pre ++ [d]) acc = scan_digits pre acc * 10 + (d.toNat - 48) := by
  induction pre with
  | nil => intro acc; simp [scan_digits, hd]
  | cons x pre ih =>
    intro acc
    have hx : isdigit x = true := hpre x (List.mem_cons_self _ _)
    simp only [List.cons_append, scan_digits, hx, if_true]
    exact ih (fun c hc => hpre c (List.mem_cons_of_mem _ hc)) _

theorem toDigitsCore_spec : ∀ (fuel n : Nat) (ds : List Char), n < fuel →
    ∃ pre, Nat.toDigitsCore 10 fuel n ds = pre ++ ds ∧ pre ≠ [] ∧
      (∀ c ∈ pre, isdigit c = true) ∧ scan_digits pre 0 = n := by
  intro fuel
  induction fuel with
  | zero => intro n ds h; omega
  | succ fuel ih =>
    intro n ds h
    have hk := isdigit_digitChar (n % 10) (Nat.mod_lt _ (by decide))
    rw [Nat.toDigitsCore]
    split
    · rename_i h0
      refine ⟨[Nat.digitChar (n % 10)], rfl, by simp, ?_, ?_⟩
      · intro c hc
        rw [List.mem_singleton.1 hc]; exact hk.1
      · simp only [scan_digits, hk.1, if_true, hk.2]
        omega
    · rename_i h0
      obtain ⟨pre, e, hne, hall, hval⟩ := ih (n / 10) (Nat.digitChar (n % 10) :: ds) (by omega)
      refine ⟨pre ++ [Nat.digitChar (n % 10)], by rw [e]; simp, by simp, ?_, ?_⟩
      · intro c hc
        rcases List.mem_append.1 hc with m | m
        · exact hall c m
        · rw [List.mem_singleton.1 m]; exact hk.1
      · rw [scan_digits_snoc _ _ hk.1 hall, hval, hk.2]
        omega

/-- The decimal numeral of `n` is a non-empty run of digits of value `n`. -/
theorem toDigits_spec (n : Nat) :
    Nat.toDigits 10 n ≠ [] ∧ (∀ c ∈ Nat.toDigits 10 n, isdigit c = true) ∧
      scan_digits (Nat.toDigits 10 n) 0 = n := by
  obtain ⟨pre, e, hne, hall, hval⟩ := toDigitsCore_spec (n + 1) n [] (by omega)
  have e2 : Nat.toDigits 10 n = pre := by
    unfold Nat.toDigits
    rw [e]; simp
  rw [e2]
  exact ⟨hne, hall, hval⟩

theorem isdigit_not_space (c : Char) (h : isdigit c = true) : isspace c = false := by
  unfold isdigit at h
  unfold isspace
  simp only [Bool.and_eq_true, decide_eq_true_eq] at h
  simp only [Bool.or_eq_false_iff, beq_eq_false_iff_ne, ne_eq, Bool.and_eq_false_imp,
    decide_eq_true_eq, decide_eq_false_iff_not]
  omega

theorem isdigit_ne (c d : Char) (h : isdigit c = true) (hd : isdigit d = false) : c ≠ d := by
  intro e; rw [e, hd] at h; cases h

theorem scan_int_toDigits (n : Nat) : scan_int (Nat.toDigits 10 n) = some (false, n) := by
  obtain ⟨hne, hall, hval⟩ := toDigits_spec n
  cases hs : Nat.toDigits 10 n with
  | nil => exact absurd hs hne
  | cons c t =>
    rw [hs] at hall hval
    have hc : isdigit c = true := hall c (List.mem_cons_self _ _)
    have h1 : c ≠ '-' := isdigit_ne c _ hc (by decide)
    have h2 : c ≠ '+' := isdigit_ne c _ hc (by decide)
    simp [scan_int, skip_space, isdigit_not_space c hc, h1, h2, hc, hval]

theorem sscanf_d_toDigits (n : Nat) (h : n < 2 ^ 31) :
    sscanf_d (Nat.toDigits 10 n) = some n := by
  unfold sscanf_d
  rw [scan_int_toDigits]
  simp only [Option.map_some', Bool.false_eq_true, if_false]
  congr 1
  have h1 : min (n : Int) ((2 : Int) ^ 63 - 1) = n := by
    apply min_eq_left; norm_num at h ⊢; omega
  have h2 : max (-(2 : Int) ^ 63) (n : Int) = n := by
    apply max_eq_right; norm_num; omega
  rw [h1, h2]
  have h3 : ((n : Int) % (2 : Int) ^ 32) = n := by
    apply Int.emod_eq_of_lt
    · omega
    · norm_num at h ⊢; omega
  rw [h3]; simp

theorem sscanf_colon_u_toDigits (p : Nat) (h : p < 2 ^ 32) :
    sscanf_colon_u (':' :: Nat.toDigits 10 p) = some p := by
  unfold sscanf_colon_u
  simp only
  rw [if_pos trivial, scan_int_toDigits]
  simp only [Option.map_some', Bool.false_eq_true, if_false]
  have h1 : ¬ p > 2 ^ 64 - 1 := by norm_num at h ⊢; omega
  have h2 : min p (2 ^ 64 - 1) = p := by apply min_eq_left; norm_num at h ⊢; omega
  rw [if_neg h1, h2, Nat.mod_eq_of_lt h]

/-! ## Prefix masks -/

theorem prefix_mask_byte_testBit (p i t : Nat) :
    (prefix_mask_byte p i).testBit t = decide (t < 8 ∧ 8 * i + (7 - t) < p) := by
  unfold prefix_mask_byte
  by_cases ht : t < 8
  · split
    · rename_i h1
      have : 8 * i + (7 - t) < p := by omega
      simp only [ht, this, and_self, decide_True]
      interval_cases t <;> rfl
    · split
      · rename_i h1 h2
        have : ¬ 8 * i + (7 - t) < p := by omega
        simp [this]
      · rename_i h1 h2
        obtain ⟨d, hd⟩ : ∃ d, p - 8 * i = d := ⟨_, rfl⟩
        have hd1 : 1 ≤ d := by omega
        have hd2 : d ≤ 7 := by omega
        have e : decide (t < 8 ∧ 8 * i + (7 - t) < p) = decide (7 - t < d) := by
          apply decide_eq_decide.2; constructor <;> intro h <;> omega
        rw [hd, e]
        interval_cases d <;> interval_cases t <;> rfl
  · have hlt : prefix_mask_byte p i < 2 ^ t := by
      have h256 : prefix_mask_byte p i < 256 := by
        unfold prefix_mask_byte
        split
        · decide
        · split
          · decide
          · have : 0 < 2 ^ (8 - (p - 8 * i)) := Nat.two_pow_pos _
            omega
      have : 2 ^ 8 ≤ 2 ^ t := Nat.pow_le_pow_right (by decide) (by omega)
      omega
    unfold prefix_mask_byte at hlt
    rw [Nat.testBit_eq_false_of_lt hlt]
    simp [ht]

theorem land_eq_iff_testBit (x y m : Nat) :
    x &&& m = y &&& m ↔ ∀ t, m.testBit t = true → x.testBit t = y.testBit t := by
  constructor
  · intro h t ht
    have := congrArg (fun z => Nat.testBit z t) h
    simpa [Nat.testBit_land, ht] using this
  · intro h
    apply Nat.eq_of_testBit_eq
    intro t
    rw [Nat.testBit_land, Nat.testBit_land]
    cases hm : m.testBit t with
    | false => simp
    | true => simp [h t hm]

/-- Comparing under a prefix mask compares the leading bits. -/
theorem prefix_compare (D a : sockaddr) (M : List Nat) (nb p : Nat)
    (hM : ∀ i, i < nb → M.getD i 0 = prefix_mask_byte p i) :
    (∀ i, i < nb → D.byte i &&& M.getD i 0 = a.byte i &&& M.getD i 0) ↔
      ∀ j, j < min p (8 * nb) → D.bit j = a.bit j := by
  constructor
  · intro h j hj
    have hi : j / 8 < nb := by omega
    have := (land_eq_iff_testBit _ _ _).1 (h (j / 8) hi) (7 - j % 8)
    rw [hM _ hi, prefix_mask_byte_testBit] at this
    unfold sockaddr.bit
    apply this
    simp only [decide_eq_true_eq]
    omega
  · intro h i hi
    rw [land_eq_iff_testBit]
    intro t ht
    rw [hM _ hi, prefix_mask_byte_testBit] at ht
    simp only [decide_eq_true_eq] at ht
    have := h (8 * i + (7 - t)) (by omega)
    unfold sockaddr.bit at this
    have e1 : (8 * i + (7 - t)) / 8 = i := by omega
    have e2 : 7 - (8 * i + (7 - t)) % 8 = t := by omega
    rw [e1, e2] at this
    exact this

theorem prefix_mask_getD (p n i : Nat) (h : i < n) :
    (prefix_mask p n).getD i 0 = prefix_mask_byte p i := by
  unfold prefix_mask
  rw [List.getD_eq_getElem _ _ (by simpa using h)]
  simp

theorem sockaddr_from_cidr_byte_eq (p i : Nat) :
    _sockaddr_from_cidr_byte p i = some (prefix_mask_byte p i) := by
  unfold _sockaddr_from_cidr_byte prefix_mask_byte
  simp only
  split
  · rename_i h1
    have a1 : ¬ 8 * (i + 1) ≤ p := by omega
    have a2 : p ≤ 8 * i := by omega
    rw [if_neg a1, if_pos a2]
    rfl
  · rename_i h1
    split
    · rename_i h2
      have a1 : ¬ 8 * (i + 1) ≤ p := by omega
      rw [if_neg a1]
      obtain ⟨d, hd⟩ : ∃ d, p - 8 * i = d := ⟨_, rfl⟩
      have hd2 : d ≤ 7 := by omega
      have e : (p : Int) - 8 * (i : Int) = (d : Int) := by omega
      have e2 : (if p ≤ 8 * i then 0 else 256 - 2 ^ (8 - d)) =
          (if d = 0 then 0 else 256 - 2 ^ (8 - d)) := by
        by_cases h0 : d = 0
        · rw [if_pos h0, if_pos (by omega)]
        · rw [if_neg h0, if_neg (by omega)]
      rw [e, hd, e2]
      interval_cases d <;> rfl
    · rename_i h2
      have a1 : 8 * (i + 1) ≤ p := by omega
      rw [if_pos a1]
      rfl

theorem sockaddr_from_cidr_loop_eq (p : Nat) : ∀ n i,
    _sockaddr_from_cidr_loop p n i = some ((List.range' i n).map (prefix_mask_byte p)) := by
  intro n
  induction n with
  | zero => intro i; rfl
  | succ n ih =>
    intro i
    rw [_sockaddr_from_cidr_loop, sockaddr_from_cidr_byte_eq]
    simp only [ih, Option.map_some', List.range'_succ, List.map_cons]

/-- The IPv6 mask that `_sockaddr_from_cidr` computes is the prefix mask. -/
theorem sockaddr_from_cidr_inet6 (p : Nat) :
    _sockaddr_from_cidr AF_INET6 p = some (some ⟨AF_INET6, prefix_mask p 16⟩) := by
  unfold _sockaddr_from_cidr
  rw [if_neg (by decide), if_pos rfl, sockaddr_from_cidr_loop_eq]
  simp [prefix_mask, List.range_eq_range']

/-- The IPv4 mask that `_sockaddr_from_cidr` computes for a prefix of at least
one bit is the prefix mask, with the prefix clamped to 32. -/
theorem sockaddr_from_cidr_inet (p : Nat) (h : 1 ≤ p) :
    _sockaddr_from_cidr AF_INET p = some (some ⟨AF_INET, prefix_mask (min p 32) 4⟩) := by
  by_cases hp : p > 32
  · unfold _sockaddr_from_cidr
    rw [if_pos rfl, if_pos hp]
    have : min p 32 = 32 := by omega
    rw [this]
    rfl
  · have hp2 : p ≤ 32 := by omega
    have : min p 32 = p := by omega
    rw [this]
    interval_cases p <;> rfl

/-! ## The steps of `_ignore` on rules of a known shape -/

theorem sockaddr_from_string_take (A r : List Char) :
    _sockaddr_from_string (some (A ++ r)) (A.length : Int) =
      _sockaddr_from_string (some A) (-1) := by
  unfold _sockaddr_from_string
  have h1 : ((A.length : Int) ≥ 0) := Int.natCast_nonneg _
  have h2 : ¬ ((-1 : Int) ≥ 0) := by decide
  simp only [h1, h2, if_true, if_false, Int.toNat_ofNat, List.take_left']

theorem literal_no_slash (A : List Char) (a : sockaddr)
    (hA : _sockaddr_from_string (some A) (-1) = some a) : '/' ∉ A := by
  intro hm
  rcases sockaddr_from_string_chars A a hA _ hm with h | h | h
  · exact absurd h (by decide)
  · exact absurd h (by decide)
  · exact absurd h (by decide)

theorem literal_no_bracket (A : List Char) (a : sockaddr)
    (hA : _sockaddr_from_string (some A) (-1) = some a) : '[' ∉ A := by
  intro hm
  rcases sockaddr_from_string_chars A a hA _ hm with h | h | h
  · exact absurd h (by decide)
  · exact absurd h (by decide)
  · exact absurd h (by decide)

/-- A text that contains a slash is not an address literal. -/
theorem slash_not_literal (s : List Char) (h : '/' ∈ s) :
    _sockaddr_from_string (some s) (-1) = none :=
  sockaddr_from_string_bad_char s '/' h (by decide) (by decide) (by decide)

/-- A decimal numeral is not an address literal. -/
theorem toDigits_not_literal (n : Nat) :
    _sockaddr_from_string (some (Nat.toDigits 10 n)) (-1) = none := by
  obtain ⟨_, hall, _⟩ := toDigits_spec n
  have hdot : '.' ∉ Nat.toDigits 10 n := fun m => absurd (hall _ m) (by decide)
  have hcol : ':' ∉ Nat.toDigits 10 n := fun m => absurd (hall _ m) (by decide)
  unfold _sockaddr_from_string
  simp [inet_pton4_no_dot _ hdot, inet_pton6_no_colon _ hcol]

theorem toDigits_no_char (n : Nat) (c : Char) (hc : isdigit c = false) :
    c ∉ Nat.toDigits 10 n := by
  intro m
  have := (toDigits_spec n).2.1 c m
  rw [hc] at this
  cases this

/-- The network step on `A/S` when `A` is an address literal. -/
theorem ignore_network_literal (A S : List Char) (a : sockaddr)
    (hA : _sockaddr_from_string (some A) (-1) = some a) :
    _ignore_network (A ++ '/' :: S) =
      match _sockaddr_from_string (some S) (-1) with
      | some m =>
        if a.sa_family = m.sa_family then network_step.candidate a m
        else network_step.fallthrough
      | none =>
        match sscanf_d S with
        | some cidr =>
          match _sockaddr_from_cidr a.sa_family (cidr % 256) with
          | none => network_step.undefined_mask a
          | some (some net) =>
            if a.sa_family = net.sa_family then network_step.candidate a net
            else network_step.fallthrough
          | some none => network_step.fallthrough
        | none => network_step.fallthrough := by
  unfold _ignore_network
  rw [strchr_append A S '/' (literal_no_slash A a hA)]
  simp only
  rw [sockaddr_from_string_take A ('/' :: S), hA]
  have hdrop : List.drop (A.length + 1) (A ++ '/' :: S) = S := by
    rw [List.drop_append_eq_append_drop]
    simp
  rw [hdrop]
  cases hS : _sockaddr_from_string (some S) (-1) with
  | some m => rfl
  | none => rfl

/-- The whole of `_ignore` on `A/S` when the network step yields a candidate. -/
theorem ignore_of_network (s : List Char) (hs : '/' ∈ s) (a m D : sockaddr) (q : Nat)
    (h : _ignore_network s = network_step.candidate a m) :
    _ignore (dest D q) (some s) = some (_sockaddr_equals (some D) (some a) (some m)) := by
  simp [_ignore, dest, slash_not_literal s hs, h, _ignore_out, px_url_get_ip_no_dns]

/-- The whole of `_ignore` on `A/S` when the bytes of the mask are undefined. -/
theorem ignore_of_network_undefined (s : List Char) (hs : '/' ∈ s) (a D : sockaddr) (q : Nat)
    (h : _ignore_network s = network_step.undefined_mask a) :
    _ignore (dest D q) (some s) =
      _sockaddr_equals_undefined_mask (some D) (some a) a.sa_family := by
  simp [_ignore, dest, slash_not_literal s hs, h, px_url_get_ip_no_dns]

/-- The rule `A/n`, for a literal `A` and a decimal `n`, compares under the mask
that `_sockaddr_from_cidr` derives from the low eight bits of `n`. -/
theorem ignore_cidr_rule (A : List Char) (a net D : sockaddr) (n q : Nat)
    (hA : _sockaddr_from_string (some A) (-1) = some a) (hn : n < 2 ^ 31)
    (hc : _sockaddr_from_cidr a.sa_family (n % 256) = some (some net))
    (hf : a.sa_family = net.sa_family) :
    _ignore (dest D q) (some (cidr_rule A n)) =
      some (_sockaddr_equals (some D) (some a) (some net)) := by
  unfold cidr_rule
  apply ignore_of_network _ (by simp)
  rw [ignore_network_literal A _ a hA, toDigits_not_literal, sscanf_d_toDigits n hn]
  simp only [hc, Option.map_some', if_pos hf]

/-- C2: for an IPv4 literal `A` and a decimal prefix length `n` with
`1 ≤ n ≤ 32`, `_ignore` on the rule `A/n` returns true exactly for the IPv4
destinations whose leading `n` bits equal those of `A`, whatever the port. -/
theorem C2_inet_cidr_rule (A : List Char) (a D : sockaddr) (n q : Nat)
    (hA : _sockaddr_from_string (some A) (-1) = some a) (h4 : a.sa_family = AF_INET)
    (h1 : 1 ≤ n) (h32 : n ≤ 32) :
    _ignore (dest D q) (some (cidr_rule A n)) =
      some (decide (D.sa_family = AF_INET ∧ ∀ j, j < n → D.bit j = a.bit j)) := by
  have hmod : n % 256 = n := Nat.mod_eq_of_lt (by omega)
  have hmin : min n 32 = n := by omega
  have hc : _sockaddr_from_cidr a.sa_family (n % 256) =
      some (some ⟨AF_INET, prefix_mask n 4⟩) := by
    rw [h4, hmod, sockaddr_from_cidr_inet n h1, hmin]
  rw [ignore_cidr_rule A a _ D n q hA (by omega) hc h4,
    sockaddr_equals_masked D a _ (Or.inl h4) h4]
  congr 1
  apply decide_eq_decide.2
  rw [h4]
  have key := prefix_compare D a (prefix_mask n 4) 4 n (fun i hi => prefix_mask_getD n 4 i hi)
  have hb : addr_bytes AF_INET = 4 := rfl
  have hmin2 : min n (8 * 4) = n := by omega
  rw [hmin2] at key
  rw [hb]
  exact and_congr_right (fun _ => key)

/-- C2 at the rule `192.168.1.0/24`: it matches 192.168.1.77 and does not match
192.168.2.1. -/
theorem C2_inet_cidr_rule_witness :
    cidr_rule "192.168.1.0".toList 24 = "192.168.1.0/24".toList ∧
      _ignore (dest ⟨AF_INET, [192, 168, 1, 77]⟩ 443) (some (cidr_rule "192.168.1.0".toList 24))
        = some true ∧
      _ignore (dest ⟨AF_INET, [192, 168, 2, 1]⟩ 443) (some (cidr_rule "192.168.1.0".toList 24))
        = some false :=
  ⟨by decide,
   (C2_inet_cidr_rule "192.168.1.0".toList ⟨AF_INET, [192, 168, 1, 0]⟩
     ⟨AF_INET, [192, 168, 1, 77]⟩ 24 443 (by decide) rfl (by decide) (by decide)).trans
     (by decide),
   (C2_inet_cidr_rule "192.168.1.0".toList ⟨AF_INET, [192, 168, 1, 0]⟩
     ⟨AF_INET, [192, 168, 2, 1]⟩ 24 443 (by decide) rfl (by decide) (by decide)).trans
     (by decide)⟩

/-- C3: for address literals `A` and `M` of the same family, `_ignore` on the
rule `A/M` returns true exactly for the destinations of the family of `A` that
agree with `A` under the mask `M` on every byte of the address width. -/
theorem C3_netmask_rule (A M : List Char) (a m D : sockaddr) (q : Nat)
    (hA : _sockaddr_from_string (some A) (-1) = some a)
    (hM : _sockaddr_from_string (some M) (-1) = some m)
    (hf : a.sa_family = m.sa_family) :
    _ignore (dest D q) (some (A ++ '/' :: M)) =
      some (decide (D.sa_family = a.sa_family ∧
        ∀ i, i < addr_bytes a.sa_family → D.byte i &&& m.byte i = a.byte i &&& m.byte i)) := by
  have hnet : _ignore_network (A ++ '/' :: M) = network_step.candidate a m := by
    rw [ignore_network_literal A M a hA, hM]
    simp only [if_pos hf]
  rw [ignore_of_network _ (by simp) a m D q hnet,
    sockaddr_equals_masked D a m (sockaddr_from_string_family _ _ _ hA) hf]

/-- C3 at the rule `10.0.7.0/255.0.255.0`, whose mask is not contiguous: it
matches 10.99.7.1 and does not match 10.99.8.1. -/
theorem C3_netmask_rule_witness :
    _ignore (dest ⟨AF_INET, [10, 99, 7, 1]⟩ 80) (some "10.0.7.0/255.0.255.0".toList)
        = some true ∧
      _ignore (dest ⟨AF_INET, [10, 99, 8, 1]⟩ 80) (some "10.0.7.0/255.0.255.0".toList)
        = some false :=
  ⟨(C3_netmask_rule "10.0.7.0".toList "255.0.255.0".toList ⟨AF_INET, [10, 0, 7, 0]⟩
     ⟨AF_INET, [255, 0, 255, 0]⟩ ⟨AF_INET, [10, 99, 7, 1]⟩ 80 (by decide) (by decide)
     rfl).trans (by decide),
   (C3_netmask_rule "10.0.7.0".toList "255.0.255.0".toList ⟨AF_INET, [10, 0, 7, 0]⟩
     ⟨AF_INET, [255, 0, 255, 0]⟩ ⟨AF_INET, [10, 99, 8, 1]⟩ 80 (by decide) (by decide)
     rfl).trans (by decide)⟩

/-! ## Address and port rules -/

theorem sockaddr_from_string_len (s : List Char) (k : Nat) :
    _sockaddr_from_string (some s) (k : Int) =
      _sockaddr_from_string (some (s.take k)) (-1) := by
  unfold _sockaddr_from_string
  have h1 : ((k : Int) ≥ 0) := Int.natCast_nonneg _
  have h2 : ¬ ((-1 : Int) ≥ 0) := by decide
  simp only [h1, h2, if_true, if_false, Int.toNat_ofNat]

theorem literal_inet (A : List Char) (a : sockaddr)
    (hA : _sockaddr_from_string (some A) (-1) = some a) (h4 : a.sa_family = AF_INET) :
    inet_pton4 A = some a.addr := by
  unfold _sockaddr_from_string at hA
  simp only [show ¬ ((-1 : Int) ≥ 0) by decide, if_false] at hA
  split at hA
  · rename_i b hb
    cases hA
    exact hb
  · split at hA
    · cases hA
      cases h4
    · cases hA

/-- An IPv4 literal followed by a colon and any text is not an address literal. -/
theorem inet_colon_not_literal (A S : List Char) (a : sockaddr)
    (hA : _sockaddr_from_string (some A) (-1) = some a) (h4 : a.sa_family = AF_INET) :
    _sockaddr_from_string (some (A ++ ':' :: S)) (-1) = none := by
  have h4p := literal_inet A a hA h4
  have hdot : '.' ∈ A := by
    by_contra hn
    rw [inet_pton4_no_dot A hn] at h4p
    cases h4p
  obtain ⟨pre, post, e⟩ := List.append_of_mem hdot
  have hp4 : inet_pton4 (A ++ ':' :: S) = none := by
    cases h : inet_pton4 (A ++ ':' :: S) with
    | none => rfl
    | some b =>
      rcases inet_pton4_chars _ _ h ':' (by simp) with h' | h'
      · exact absurd h' (by decide)
      · exact absurd h' (by decide)
  have hp6 : inet_pton6 (A ++ ':' :: S) = none := by
    cases h : inet_pton6 (A ++ ':' :: S) with
    | none => rfl
    | some b =>
      have e2 : A ++ ':' :: S = pre ++ '.' :: (post ++ ':' :: S) := by
        rw [e]; simp
      rcases inet_pton6_after_dot _ _ h pre _ e2 ':' (by simp) with h' | h'
      · exact absurd h' (by decide)
      · exact absurd h' (by decide)
  unfold _sockaddr_from_string
  simp [hp4, hp6]

/-- The port step on `A:p` for an IPv4 literal `A` and a decimal port `p`. -/
theorem ignore_port_inet (A : List Char) (a : sockaddr) (p : Nat) (url : pxURL)
    (dst : Option sockaddr)
    (hA : _sockaddr_from_string (some A) (-1) = some a) (h4 : a.sa_family = AF_INET)
    (h1 : 1 ≤ p) (h2 : p < 2 ^ 32) :
    _ignore_port url dst (port_rule A p) = _ignore_out url dst (some a) none p := by
  unfold _ignore_port port_rule
  rw [strrchr_append A _ ':' (toDigits_no_char p ':' (by decide))]
  simp only
  have hdrop : List.drop A.length (A ++ ':' :: Nat.toDigits 10 p) = ':' :: Nat.toDigits 10 p := by
    rw [List.drop_append_eq_append_drop]
    simp
  rw [hdrop, sscanf_colon_u_toDigits p h2]
  simp only
  rw [if_pos (by omega), sockaddr_from_string_take, hA]
  simp [h4]

theorem ignore_network_no_slash (s : List Char) (h : '/' ∉ s) :
    _ignore_network s = network_step.fallthrough := by
  unfold _ignore_network
  rw [strchr_none s '/' h]

/-- C4: for an IPv4 literal `A` and a decimal port `p` with `1 ≤ p ≤ 65535`,
`_ignore` on the rule `A:p` returns true exactly for the destinations whose
port is `p` and whose address is IPv4 and byte for byte equal to `A`. -/
theorem C4_inet_port_rule (A : List Char) (a D : sockaddr) (p q : Nat)
    (hA : _sockaddr_from_string (some A) (-1) = some a) (h4 : a.sa_family = AF_INET)
    (h1 : 1 ≤ p) (h2 : p ≤ 65535) :
    _ignore (dest D q) (some (port_rule A p)) =
      some (decide (q = p ∧ D.sa_family = AF_INET ∧
        ∀ i : Nat, i < 4 → D.byte i = a.byte i)) := by
  have hnl : _sockaddr_from_string (some (port_rule A p)) (-1) = none :=
    inet_colon_not_literal A _ a hA h4
  have hns : '/' ∉ port_rule A p := by
    unfold port_rule
    intro hm
    rcases List.mem_append.1 hm with m | m
    · exact literal_no_slash A a hA m
    · rcases List.mem_cons.1 m with e | m2
      · exact absurd e (by decide)
      · exact toDigits_no_char p '/' (by decide) m2
  have hp0 : p ≠ 0 := by omega
  simp only [_ignore, dest, hnl, ignore_network_no_slash _ hns, px_url_get_ip_no_dns]
  rw [ignore_port_inet A a p _ _ hA h4 h1 (by omega)]
  simp only [_ignore_out, px_url_get_port, ne_eq, hp0, not_false_eq_true, if_true]
  rw [sockaddr_equals_exact D a (Or.inl h4), h4]
  congr 1
  have hb : addr_bytes AF_INET = 4 := rfl
  rw [hb, Bool.eq_iff_iff]
  simp only [Bool.and_eq_true, beq_iff_eq, decide_eq_true_eq]
  constructor
  · rintro ⟨e, h⟩; exact ⟨e.symm, h⟩
  · rintro ⟨e, h⟩; exact ⟨e.symm, h⟩

/-- C4 at the rule `192.168.1.5:8080`: it matches 192.168.1.5 port 8080 and does
not match 192.168.1.5 port 80. -/
theorem C4_inet_port_rule_witness :
    port_rule "192.168.1.5".toList 8080 = "192.168.1.5:8080".toList ∧
      _ignore (dest ⟨AF_INET, [192, 168, 1, 5]⟩ 8080)
        (some (port_rule "192.168.1.5".toList 8080)) = some true ∧
      _ignore (dest ⟨AF_INET, [192, 168, 1, 5]⟩ 80)
        (some (port_rule "192.168.1.5".toList 8080)) = some false :=
  ⟨by decide,
   (C4_inet_port_rule "192.168.1.5".toList ⟨AF_INET, [192, 168, 1, 5]⟩
     ⟨AF_INET, [192, 168, 1, 5]⟩ 8080 8080 (by decide) rfl (by decide) (by decide)).trans
     (by decide),
   (C4_inet_port_rule "192.168.1.5".toList ⟨AF_INET, [192, 168, 1, 5]⟩
     ⟨AF_INET, [192, 168, 1, 5]⟩ 8080 80 (by decide) rfl (by decide) (by decide)).trans
     (by decide)⟩

/-! ## Bracketed rules -/

theorem empty_not_literal : _sockaddr_from_string (some []) (-1) = none := by decide

/-- No prefix of a text that starts with a bracket is an address literal. -/
theorem bracket_take_not_literal (s : List Char) (k : Nat) :
    _sockaddr_from_string (some ('[' :: s)) (k : Int) = none := by
  rw [sockaddr_from_string_len]
  cases k with
  | zero => exact empty_not_literal
  | succ k =>
    exact sockaddr_from_string_bad_char _ '[' (by simp) (by decide) (by decide) (by decide)

/-- A rule that starts with a bracket matches no destination: the brackets are
never removed before the address is parsed. -/
theorem bracket_rule_never_matches (s : List Char) (url : pxURL) :
    _ignore (some url) (some ('[' :: s)) = some false := by
  have hwhole : _sockaddr_from_string (some ('[' :: s)) (-1) = none :=
    sockaddr_from_string_bad_char _ '[' (by simp) (by decide) (by decide) (by decide)
  have hnet : _ignore_network ('[' :: s) = network_step.fallthrough := by
    unfold _ignore_network
    cases hk : strchr ('[' :: s) '/' with
    | none => rfl
    | some k =>
      simp only [bracket_take_not_literal s k]
  have hport : ∀ dst, _ignore_port url dst ('[' :: s) = false := by
    intro dst
    unfold _ignore_port
    have hout : _ignore_out url dst none none 0 = false := by
      simp [_ignore_out, _sockaddr_equals]
    cases hk : strrchr ('[' :: s) ':' with
    | none => exact hout
    | some k =>
      simp only
      cases hp : sscanf_colon_u (List.drop k ('[' :: s)) with
      | none => exact hout
      | some port =>
        simp only [bracket_take_not_literal s k]
        split
        · exact hout
        · exact hout
  simp only [_ignore, hwhole, hnet, hport]

/-! ## Parsed addresses hold bytes -/

theorem inet_pton4_loop_bytes : ∀ (src : List Char) (done : List Nat) (cur : Nat) (sd : Bool)
    (oct : Nat) (b : List Nat), inet_pton4_loop src done cur sd oct = some b →
    (∀ x ∈ done, x < 256) → cur < 256 → ∀ x ∈ b, x < 256 := by
  intro src
  induction src with
  | nil =>
    intro done cur sd oct b h hd hc
    rw [inet_pton4_loop] at h
    split at h
    · cases h
    · cases h
      intro x hx
      rcases List.mem_append.1 hx with m | m
      · exact hd x m
      · rw [List.mem_singleton.1 m]; exact hc
  | cons ch src ih =>
    intro done cur sd oct b h hd hc
    rw [inet_pton4_loop] at h
    split at h
    · simp only at h
      split at h
      · cases h
      · split at h
        · cases h
        · rename_i hnew
          have hnew2 : cur * 10 + (ch.toNat - 48) < 256 := by omega
          split at h
          · split at h
            · cases h
            · exact ih _ _ _ _ _ h hd hnew2
          · exact ih _ _ _ _ _ h hd hnew2
    · split at h
      · split at h
        · cases h
        · refine ih _ _ _ _ _ h ?_ (by decide)
          intro x hx
          rcases List.mem_append.1 hx with m | m
          · exact hd x m
          · rw [List.mem_singleton.1 m]; exact hc
      · cases h

theorem inet_pton4_bytes (s : List Char) (b : List Nat) (h : inet_pton4 s = some b) :
    ∀ x ∈ b, x < 256 :=
  inet_pton4_loop_bytes s [] 0 false 0 b h (fun _ hx => by cases hx) (by decide)

theorem inet_pton6_finish_bytes (xd val : Nat) (tp : List Nat) (colonp : Option Nat)
    (b : List Nat) (h : inet_pton6_finish xd val tp colonp = some b)
    (ht : ∀ x ∈ tp, x < 256) : ∀ x ∈ b, x < 256 := by
  unfold inet_pton6_finish at h
  split at h
  · cases h
  · simp only at h
    have ht2 : ∀ x ∈ (if 0 < xd then tp ++ [val / 256 % 256, val % 256] else tp), x < 256 := by
      intro x hx
      split at hx
      · rcases List.mem_append.1 hx with m | m
        · exact ht x m
        · simp only [List.mem_cons, List.mem_singleton, List.not_mem_nil, or_false] at m
          rcases m with e | e <;> rw [e] <;> exact Nat.mod_lt _ (by decide)
      · exact ht x hx
    generalize (if 0 < xd then tp ++ [val / 256 % 256, val % 256] else tp) = T at h ht2
    cases colonp with
    | some c =>
      simp only at h
      by_cases hl : T.length = 16
      · rw [if_pos hl] at h; cases h
      · rw [if_neg hl] at h
        cases h
        intro x hx
        rcases List.mem_append.1 hx with m | m
        · rcases List.mem_append.1 m with m1 | m1
          · exact ht2 x (List.mem_of_mem_take m1)
          · rw [(List.mem_replicate.1 m1).2]; decide
        · exact ht2 x (List.mem_of_mem_drop m)
    | none =>
      simp only at h
      by_cases hl : T.length = 16
      · rw [if_pos hl] at h; cases h; exact ht2
      · rw [if_neg hl] at h; cases h

theorem inet_pton6_loop_bytes : ∀ (src curtok : List Char) (xd val : Nat) (tp : List Nat)
    (colonp : Option Nat) (b : List Nat),
    inet_pton6_loop src curtok xd val tp colonp = some b →
    (∀ x ∈ tp, x < 256) → ∀ x ∈ b, x < 256 := by
  intro src
  induction src with
  | nil =>
    intro curtok xd val tp colonp b h ht
    rw [inet_pton6_loop] at h
    exact inet_pton6_finish_bytes _ _ _ _ _ h ht
  | cons ch src ih =>
    intro curtok xd val tp colonp b h ht
    have ht2 : ∀ x ∈ tp ++ [val / 256 % 256, val % 256], x < 256 := by
      intro x hx
      rcases List.mem_append.1 hx with m | m
      · exact ht x m
      · simp only [List.mem_cons, List.mem_singleton, List.not_mem_nil, or_false] at m
        rcases m with e | e <;> rw [e] <;> exact Nat.mod_lt _ (by decide)
    rw [inet_pton6_loop] at h
    split at h
    · split at h
      · cases h
      · split at h
        · cases h
        · exact ih _ _ _ _ _ _ h ht
    · split at h
      · split at h
        · split at h
          · cases h
          · exact ih _ _ _ _ _ _ h ht
        · split at h
          · cases h
          · split at h
            · cases h
            · exact ih _ _ _ _ _ _ h ht2
      · split at h
        · split at h
          · rename_i quad hq
            refine inet_pton6_finish_bytes _ _ _ _ _ h ?_
            intro x hx
            rcases List.mem_append.1 hx with m | m
            · exact ht x m
            · exact inet_pton4_bytes _ _ hq x m
          · cases h
        · cases h

theorem inet_pton6_bytes (s : List Char) (b : List Nat) (h : inet_pton6 s = some b) :
    ∀ x ∈ b, x < 256 := by
  unfold inet_pton6 at h
  cases s with
  | nil => cases h
  | cons ch rest =>
    simp only at h
    split at h
    · cases rest with
      | nil => cases h
      | cons ch2 rest2 =>
        simp only at h
        split at h
        · exact inet_pton6_loop_bytes _ _ _ _ _ _ _ h (fun _ hx => by cases hx)
        · cases h
    · exact inet_pton6_loop_bytes _ _ _ _ _ _ _ h (fun _ hx => by cases hx)

/-- Every byte of a parsed address is below 256. -/
theorem sockaddr_from_string_bytes (s : Option (List Char)) (len : Int) (L : sockaddr)
    (h : _sockaddr_from_string s len = some L) : ∀ i, L.byte i < 256 := by
  have hall : ∀ x ∈ L.addr, x < 256 := by
    unfold _sockaddr_from_string at h
    cases s with
    | none => simp at h
    | some ip =>
      simp only at h
      split at h
      · rename_i b hb
        cases h
        exact inet_pton4_bytes _ _ hb
      · split at h
        · rename_i b hb
          cases h
          exact inet_pton6_bytes _ _ hb
        · cases h
  intro i
  unfold sockaddr.byte
  by_cases hi : i < L.addr.length
  · rw [List.getD_eq_getElem _ _ hi]
    exact hall _ (List.getElem_mem _)
  · rw [List.getD_eq_default _ _ (by omega)]
    decide

theorem land_255 (x y : Nat) (hx : x < 256) (hy : y < 256) :
    (x &&& 255 = y &&& 255) ↔ x = y := by
  have e : ∀ z, z < 256 → z &&& 255 = z := by
    intro z hz
    have := Nat.and_pow_two_sub_one_eq_mod z 8
    simp only [Nat.reducePow, Nat.add_one_sub_one] at this
    rw [this, Nat.mod_eq_of_lt hz]
  rw [e x hx, e y hy]

/-! ## Prefix rules in general -/

/-- The rule `A/n` for an IPv6 literal `A`: the low eight bits of `n`, clamped
to 128, are the number of leading bits compared. -/
theorem inet6_cidr_rule (A : List Char) (a D : sockaddr) (n q : Nat)
    (hA : _sockaddr_from_string (some A) (-1) = some a) (h6 : a.sa_family = AF_INET6)
    (hn : n < 2 ^ 31) :
    _ignore (dest D q) (some (cidr_rule A n)) =
      some (decide (D.sa_family = AF_INET6 ∧
        ∀ j, j < min (n % 256) 128 → D.bit j = a.bit j)) := by
  have hc : _sockaddr_from_cidr a.sa_family (n % 256) =
      some (some ⟨AF_INET6, prefix_mask (n % 256) 16⟩) := by
    rw [h6, sockaddr_from_cidr_inet6]
  rw [ignore_cidr_rule A a _ D n q hA hn hc h6,
    sockaddr_equals_masked D a _ (Or.inr h6) h6]
  congr 1
  apply decide_eq_decide.2
  rw [h6]
  have key := prefix_compare D a (prefix_mask (n % 256) 16) 16 (n % 256)
    (fun i hi => prefix_mask_getD (n % 256) 16 i hi)
  have hb : addr_bytes AF_INET6 = 16 := rfl
  rw [hb]
  exact and_congr_right (fun _ => key)

/-- The rule `A/n` for an IPv4 literal `A` when the low eight bits of `n` are
not all zero: that number, clamped to 32, is the number of leading bits compared. -/
theorem inet_cidr_rule (A : List Char) (a D : sockaddr) (n q : Nat)
    (hA : _sockaddr_from_string (some A) (-1) = some a) (h4 : a.sa_family = AF_INET)
    (hn : n < 2 ^ 31) (h0 : n % 256 ≠ 0) :
    _ignore (dest D q) (some (cidr_rule A n)) =
      some (decide (D.sa_family = AF_INET ∧
        ∀ j, j < min (n % 256) 32 → D.bit j = a.bit j)) := by
  have hc : _sockaddr_from_cidr a.sa_family (n % 256) =
      some (some ⟨AF_INET, prefix_mask (min (n % 256) 32) 4⟩) := by
    rw [h4, sockaddr_from_cidr_inet (n % 256) (by omega)]
  rw [ignore_cidr_rule A a _ D n q hA hn hc h4,
    sockaddr_equals_masked D a _ (Or.inl h4) h4]
  congr 1
  apply decide_eq_decide.2
  rw [h4]
  have key := prefix_compare D a (prefix_mask (min (n % 256) 32) 4) 4 (min (n % 256) 32)
    (fun i hi => prefix_mask_getD _ 4 i hi)
  have hb : addr_bytes AF_INET = 4 := rfl
  have hmin : min (min (n % 256) 32) (8 * 4) = min (n % 256) 32 := by omega
  rw [hmin] at key
  rw [hb]
  exact and_congr_right (fun _ => key)

theorem byte_lt_of_addr (D : sockaddr) (h : ∀ x ∈ D.addr, x < 256) (i : Nat) :
    D.byte i < 256 := by
  unfold sockaddr.byte
  by_cases hi : i < D.addr.length
  · rw [List.getD_eq_getElem _ _ hi]
    exact h _ (List.getElem_mem _)
  · rw [List.getD_eq_default _ _ (by omega)]
    decide

/-- The rule `A/n` whose mask is all ones over the `nb` bytes of the family. -/
theorem full_mask_rule (A : List Char) (a D : sockaddr) (n q nb : Nat)
    (hA : _sockaddr_from_string (some A) (-1) = some a)
    (hD : ∀ x ∈ D.addr, x < 256) (hn : n < 256) (hnb : addr_bytes a.sa_family = nb)
    (hc : _sockaddr_from_cidr a.sa_family n = some (some ⟨a.sa_family, prefix_mask (8 * nb) nb⟩)) :
    _ignore (dest D q) (some (cidr_rule A n)) =
      some (decide (D.sa_family = a.sa_family ∧
        ∀ i, i < addr_bytes a.sa_family → D.byte i = a.byte i)) := by
  have hmod : n % 256 = n := Nat.mod_eq_of_lt hn
  rw [ignore_cidr_rule A a ⟨a.sa_family, prefix_mask (8 * nb) nb⟩ D n q hA (by omega)
      (by rw [hmod]; exact hc) rfl,
    sockaddr_equals_masked D a ⟨a.sa_family, prefix_mask (8 * nb) nb⟩
      (sockaddr_from_string_family _ _ _ hA) rfl]
  congr 1
  apply decide_eq_decide.2
  apply and_congr_right
  intro _
  rw [hnb]
  have hm : ∀ i, i < nb →
      (⟨a.sa_family, prefix_mask (8 * nb) nb⟩ : sockaddr).byte i = 255 := by
    intro i hi
    unfold sockaddr.byte
    simp only
    rw [prefix_mask_getD _ _ _ hi]
    unfold prefix_mask_byte
    rw [if_pos (by omega)]
  constructor
  · intro h i hi
    have := h i hi
    rw [hm i hi] at this
    exact (land_255 _ _ (byte_lt_of_addr D hD i) (sockaddr_from_string_bytes _ _ _ hA i)).1 this
  · intro h i hi
    rw [h i hi]

/-! ## The claims on brackets, prefix 0, full prefixes and wide prefixes -/

/-- C5: the rule `[::1]:80` does not match the destination `::1` port 80,
although `::1` is an IPv6 literal and 80 a port in range: `_ignore` returns
false because the text `[::1]` is parsed with its brackets. -/
theorem C5_bracketed_inet6_port_rule_fails :
    _sockaddr_from_string (some "::1".toList) (-1) =
        some ⟨AF_INET6, [0, 0, 0, 0, 0, 0, 0, 0, 0, 0, 0, 0, 0, 0, 0, 1]⟩ ∧
      _sockaddr_from_string (some "[::1]".toList) (-1) = none ∧
      _ignore (dest ⟨AF_INET6, [0, 0, 0, 0, 0, 0, 0, 0, 0, 0, 0, 0, 0, 0, 0, 1]⟩ 80)
        (some "[::1]:80".toList) = some false := by
  decide

/-- The IPv6 half of the prefix 0 claim: `A/0` matches every IPv6 destination. -/
theorem inet6_prefix0_rule (A : List Char) (a D : sockaddr) (q : Nat)
    (hA : _sockaddr_from_string (some A) (-1) = some a) (h6 : a.sa_family = AF_INET6) :
    _ignore (dest D q) (some (cidr_rule A 0)) = some (decide (D.sa_family = AF_INET6)) := by
  rw [inet6_cidr_rule A a D 0 q hA h6 (by decide)]
  congr 1
  apply decide_eq_decide.2
  constructor
  · intro h; exact h.1
  · intro h
    refine ⟨h, fun j hj => ?_⟩
    have h0 : min (0 % 256) 128 = 0 := by decide
    rw [h0] at hj
    exact absurd hj (Nat.not_lt_zero j)

/-- C6: on the rule `10.0.0.0/0` and the IPv4 destination 192.168.1.1 the call
of `_ignore` has no defined result, because `_sockaddr_from_cidr` shifts a
32-bit `int` by 32 positions; it does not return true. -/
theorem C6_inet_prefix0_undefined :
    cidr_rule "10.0.0.0".toList 0 = "10.0.0.0/0".toList ∧
      int_shl (-1) (32 - (0 : Int)) = none ∧
      _ignore (dest ⟨AF_INET, [192, 168, 1, 1]⟩ 80) (some "10.0.0.0/0".toList) = none := by
  decide

/-- C7: for an IPv4 literal `A` the rule `A/32`, and for an IPv6 literal `A` the
rule `A/128`, makes `_ignore` return true exactly for the destinations of the
family of `A` that are byte for byte equal to `A`, which are the destinations
the bare rule `A` matches. -/
theorem C7_full_width_exact (A : List Char) (a D : sockaddr) (q : Nat)
    (hA : _sockaddr_from_string (some A) (-1) = some a)
    (hD : ∀ x ∈ D.addr, x < 256) :
    (a.sa_family = AF_INET →
      _ignore (dest D q) (some (cidr_rule A 32)) =
          some (decide (D.sa_family = AF_INET ∧ ∀ i : Nat, i < 4 → D.byte i = a.byte i)) ∧
        _ignore (dest D q) (some (cidr_rule A 32)) = _ignore (dest D q) (some A)) ∧
    (a.sa_family = AF_INET6 →
      _ignore (dest D q) (some (cidr_rule A 128)) =
          some (decide (D.sa_family = AF_INET6 ∧ ∀ i : Nat, i < 16 → D.byte i = a.byte i)) ∧
        _ignore (dest D q) (some (cidr_rule A 128)) = _ignore (dest D q) (some A)) := by
  constructor
  · intro h4
    have hnb : addr_bytes a.sa_family = 4 := by rw [h4]; rfl
    have hc : _sockaddr_from_cidr a.sa_family 32 =
        some (some ⟨a.sa_family, prefix_mask (8 * 4) 4⟩) := by rw [h4]; rfl
    have h := full_mask_rule A a D 32 q 4 hA hD (by decide) hnb hc
    refine ⟨?_, ?_⟩
    · rw [h, hnb, h4]
    · rw [h, bare_address_rule A a D q hA]
  · intro h6
    have hnb : addr_bytes a.sa_family = 16 := by rw [h6]; rfl
    have hc : _sockaddr_from_cidr a.sa_family 128 =
        some (some ⟨a.sa_family, prefix_mask (8 * 16) 16⟩) := by
      rw [h6, sockaddr_from_cidr_inet6]
    have h := full_mask_rule A a D 128 q 16 hA hD (by decide) hnb hc
    refine ⟨?_, ?_⟩
    · rw [h, hnb, h6]
    · rw [h, bare_address_rule A a D q hA]

/-- C7 at the rules `10.1.2.3/32` and `fe80::1/128`: each matches the
destination with its own address and not a destination that differs in the
last bit. -/
theorem C7_full_width_exact_witness :
    (_ignore (dest ⟨AF_INET, [10, 1, 2, 3]⟩ 80) (some (cidr_rule "10.1.2.3".toList 32))
        = some true ∧
      _ignore (dest ⟨AF_INET, [10, 1, 2, 2]⟩ 80) (some (cidr_rule "10.1.2.3".toList 32))
        = some false) ∧
    (_ignore (dest ⟨AF_INET6, [254, 128, 0, 0, 0, 0, 0, 0, 0, 0, 0, 0, 0, 0, 0, 0]⟩ 80)
        (some (cidr_rule "fe80::1".toList 128)) = some false) :=
  ⟨⟨((C7_full_width_exact "10.1.2.3".toList ⟨AF_INET, [10, 1, 2, 3]⟩
        ⟨AF_INET, [10, 1, 2, 3]⟩ 80 (by decide) (by decide)).1 rfl).1.trans (by decide),
     ((C7_full_width_exact "10.1.2.3".toList ⟨AF_INET, [10, 1, 2, 3]⟩
        ⟨AF_INET, [10, 1, 2, 2]⟩ 80 (by decide) (by decide)).1 rfl).1.trans (by decide)⟩,
   ((C7_full_width_exact "fe80::1".toList
        ⟨AF_INET6, [254, 128, 0, 0, 0, 0, 0, 0, 0, 0, 0, 0, 0, 0, 0, 1]⟩
        ⟨AF_INET6, [254, 128, 0, 0, 0, 0, 0, 0, 0, 0, 0, 0, 0, 0, 0, 0]⟩ 80
        (by decide) (by decide)).2 rfl).1.trans (by decide)⟩

/-- The part of the IPv4 mask claim that the code meets: for a prefix value `p`
of at least 1 the mask has its leading `min p 32` bits set and the others clear. -/
theorem inet_mask_positive (p : Nat) (h : 1 ≤ p) :
    ∃ M : sockaddr, _sockaddr_from_cidr AF_INET p = some (some M) ∧
      M.sa_family = AF_INET ∧ M.addr.length = 4 ∧
      (∀ j, j < 32 → M.bit j = decide (j < min p 32)) ∧
      (32 ≤ p → M.addr = [255, 255, 255, 255]) := by
  refine ⟨⟨AF_INET, prefix_mask (min p 32) 4⟩, sockaddr_from_cidr_inet p h, rfl,
    by simp [prefix_mask], ?_, ?_⟩
  · intro j hj
    unfold sockaddr.bit sockaddr.byte
    simp only
    rw [prefix_mask_getD _ _ _ (by omega), prefix_mask_byte_testBit]
    apply decide_eq_decide.2
    constructor <;> intro h' <;> omega
  · intro h32
    have : min p 32 = 32 := by omega
    rw [this]
    rfl

/-- C8: for the prefix value 0 the IPv4 branch of `_sockaddr_from_cidr`
evaluates `~0 << 32` on a 32-bit `int`, which has no defined result; it does
not produce the mask 0.0.0.0. -/
theorem C8_inet_mask_prefix0_undefined :
    int_shl (-1) (32 - (if (0 : Nat) > 32 then 32 else ((0 : Nat) : Int))) = none ∧
      _sockaddr_from_cidr AF_INET 0 = none := by
  decide

theorem prefix_mask_const (p n v : Nat) (h : ∀ i, i < n → prefix_mask_byte p i = v) :
    prefix_mask p n = List.replicate n v := by
  apply List.ext_getElem
  · simp [prefix_mask]
  · intro i h1 h2
    have hi : i < n := by simpa [prefix_mask] using h1
    simp [prefix_mask, h i hi]

/-- C9: for every prefix value `p` the IPv6 branch of `_sockaddr_from_cidr`
produces a 16-byte mask whose leading `min p 128` bits are set and whose other
bits are clear: byte `i` is `0xFF` when `8 * (i + 1) ≤ p`, `0x00` when
`8 * i ≥ p`, and otherwise has exactly its top `p - 8 * i` bits set; `p = 0`
gives the all-zero mask and every `p ≥ 128` the all-one mask. -/
theorem C9_inet6_mask (p : Nat) :
    ∃ M : sockaddr, _sockaddr_from_cidr AF_INET6 p = some (some M) ∧
      M.sa_family = AF_INET6 ∧ M.addr.length = 16 ∧
      (∀ i, i < 16 →
        (8 * (i + 1) ≤ p → M.byte i = 0xFF) ∧
        (8 * i ≥ p → M.byte i = 0x00) ∧
        (8 * i < p → p < 8 * (i + 1) →
          M.byte i < 256 ∧
          ∀ t, t < 8 → (M.byte i).testBit t = decide (8 - (p - 8 * i) ≤ t))) ∧
      (∀ j, j < 128 → M.bit j = decide (j < min p 128)) ∧
      (p = 0 → M.addr = List.replicate 16 0) ∧
      (128 ≤ p → M.addr = List.replicate 16 255) := by
  refine ⟨⟨AF_INET6, prefix_mask p 16⟩, sockaddr_from_cidr_inet6 p, rfl,
    by simp [prefix_mask], ?_, ?_, ?_, ?_⟩
  · intro i hi
    have hb : (⟨AF_INET6, prefix_mask p 16⟩ : sockaddr).byte i = prefix_mask_byte p i := by
      unfold sockaddr.byte
      exact prefix_mask_getD p 16 i hi
    rw [hb]
    refine ⟨?_, ?_, ?_⟩
    · intro h
      unfold prefix_mask_byte
      rw [if_pos h]
    · intro h
      unfold prefix_mask_byte
      rw [if_neg (by omega), if_pos (by omega)]
    · intro h1 h2
      refine ⟨?_, ?_⟩
      · unfold prefix_mask_byte
        rw [if_neg (by omega), if_neg (by omega)]
        have : 0 < 2 ^ (8 - (p - 8 * i)) := Nat.two_pow_pos _
        omega
      · intro t ht
        rw [prefix_mask_byte_testBit]
        apply decide_eq_decide.2
        constructor <;> intro h' <;> omega
  · intro j hj
    unfold sockaddr.bit sockaddr.byte
    simp only
    rw [prefix_mask_getD _ _ _ (by omega), prefix_mask_byte_testBit]
    apply decide_eq_decide.2
    constructor <;> intro h' <;> omega
  · intro h0
    apply prefix_mask_const
    intro i hi
    unfold prefix_mask_byte
    rw [if_neg (by omega), if_pos (by omega)]
  · intro h128
    apply prefix_mask_const
    intro i hi
    unfold prefix_mask_byte
    rw [if_pos (by omega)]

/-- The part of the clamping claim that the code meets: a decimal prefix above
the width of the family and below 256 behaves as the full-width prefix. -/
theorem wide_prefix_below_256 (A : List Char) (a D : sockaddr) (n q : Nat)
    (hA : _sockaddr_from_string (some A) (-1) = some a) (hn : n < 256) :
    (a.sa_family = AF_INET → 32 < n →
      _ignore (dest D q) (some (cidr_rule A n)) = _ignore (dest D q) (some (cidr_rule A 32))) ∧
    (a.sa_family = AF_INET6 → 128 < n →
      _ignore (dest D q) (some (cidr_rule A n)) =
        _ignore (dest D q) (some (cidr_rule A 128))) := by
  have hmod : n % 256 = n := Nat.mod_eq_of_lt hn
  constructor
  · intro h4 h32
    rw [inet_cidr_rule A a D n q hA h4 (by omega) (by omega),
      inet_cidr_rule A a D 32 q hA h4 (by decide) (by decide), hmod]
    have e1 : min n 32 = 32 := by omega
    have e2 : min (32 % 256) 32 = 32 := by decide
    rw [e1, e2]
  · intro h6 h128
    rw [inet6_cidr_rule A a D n q hA h6 (by omega),
      inet6_cidr_rule A a D 128 q hA h6 (by decide), hmod]
    have e1 : min n 128 = 128 := by omega
    have e2 : min (128 % 256) 128 = 128 := by decide
    rw [e1, e2]

/-- C10: the rule `10.0.0.0/264` is not clamped to `10.0.0.0/32`: the prefix is
cut to its low eight bits, 8, before it is clamped, so the rule matches
10.1.2.3, which `10.0.0.0/32` does not match; likewise `fe80::/264` matches
fe99::1, which `fe80::/128` does not match. -/
theorem C10_wide_prefix_wraps :
    (_ignore (dest ⟨AF_INET, [10, 1, 2, 3]⟩ 80) (some "10.0.0.0/264".toList) = some true ∧
      _ignore (dest ⟨AF_INET, [10, 1, 2, 3]⟩ 80) (some "10.0.0.0/32".toList) = some false) ∧
    (_ignore (dest ⟨AF_INET6, [254, 153, 0, 0, 0, 0, 0, 0, 0, 0, 0, 0, 0, 0, 0, 1]⟩ 80)
        (some "fe80::/264".toList) = some true ∧
      _ignore (dest ⟨AF_INET6, [254, 153, 0, 0, 0, 0, 0, 0, 0, 0, 0, 0, 0, 0, 0, 1]⟩ 80)
        (some "fe80::/128".toList) = some false) := by
  decide

/-! ## The shape of the port step -/

theorem ignore_out_null (url : pxURL) (dst : Option sockaddr) :
    _ignore_out url dst none none 0 = false := by
  cases dst <;> simp [_ignore_out, _sockaddr_equals]

/-- The port step either yields false or accepts an address for a positive port. -/
theorem ignore_port_cases (url : pxURL) (dst : Option sockaddr) (s : List Char) :
    _ignore_port url dst s = false ∨
      ∃ k port ign, strrchr s ':' = some k ∧ sscanf_colon_u (s.drop k) = some port ∧
        0 < port ∧ _sockaddr_from_string (some s) (k : Int) = some ign ∧
        (ign.sa_family ≠ AF_INET6 ∨ s.head? = some '[') ∧
        _ignore_port url dst s = _ignore_out url dst (some ign) none port := by
  unfold _ignore_port
  cases hk : strrchr s ':' with
  | none => left; exact ignore_out_null url dst
  | some k =>
    simp only
    cases hp : sscanf_colon_u (List.drop k s) with
    | none => left; exact ignore_out_null url dst
    | some port =>
      simp only
      by_cases hpos : port > 0
      · rw [if_pos hpos]
        cases hi : _sockaddr_from_string (some s) (k : Int) with
        | none => left; exact ignore_out_null url dst
        | some ign =>
          simp only
          by_cases hacc : (ign.sa_family ≠ AF_INET6 || s.head? == some '[') = true
          · rw [if_pos hacc]
            right
            refine ⟨k, port, ign, rfl, hp, hpos, hi, ?_, rfl⟩
            simpa using hacc
          · rw [if_neg hacc]
            left; exact ignore_out_null url dst
      · rw [if_neg hpos]
        left; exact ignore_out_null url dst

/-- The whole of `_ignore` when the first two steps yield no candidate. -/
theorem ignore_of_fallthrough (url : pxURL) (s : List Char)
    (hw : _sockaddr_from_string (some s) (-1) = none)
    (hn : _ignore_network s = network_step.fallthrough) :
    _ignore (some url) (some s) = some (_ignore_port url (px_url_get_ip_no_dns url) s) := by
  simp only [_ignore, hw, hn]

theorem strrchr_of_mem (c : Char) : ∀ (t : List Char), c ∈ t → strrchr t c ≠ none := by
  intro t
  induction t with
  | nil => intro h; cases h
  | cons y t iht =>
    intro hy
    rw [strrchr]
    cases ht : strrchr t c with
    | some j => simp
    | none =>
      simp only
      rcases List.mem_cons.1 hy with e1 | e1
      · rw [if_pos e1.symm]; simp
      · exact absurd ht (iht e1)

theorem strrchr_some : ∀ (s : List Char) (c : Char) (k : Nat), strrchr s c = some k →
    ∃ pre post, s = pre ++ c :: post ∧ pre.length = k ∧ c ∉ post := by
  intro s c
  induction s with
  | nil => intro k h; cases h
  | cons x s ih =>
    intro k h
    rw [strrchr] at h
    cases hs : strrchr s c with
    | some j =>
      rw [hs] at h
      simp only [Option.some.injEq] at h
      obtain ⟨pre, post, e, hl, hn⟩ := ih j hs
      exact ⟨x :: pre, post, by rw [e]; rfl, by simp [hl, h], hn⟩
    | none =>
      rw [hs] at h
      simp only at h
      by_cases hx : x = c
      · rw [if_pos hx] at h
        cases h
        exact ⟨[], s, by rw [hx]; rfl, rfl, fun hm => strrchr_of_mem c s hm hs⟩
      · rw [if_neg hx] at h
        cases h

/-! ## Rules that mix families -/

theorem literal_cases (A : List Char) (a : sockaddr)
    (hA : _sockaddr_from_string (some A) (-1) = some a) :
    inet_pton4 A = some a.addr ∨ inet_pton6 A = some a.addr := by
  unfold _sockaddr_from_string at hA
  simp only [show ¬ ((-1 : Int) ≥ 0) by decide, if_false] at hA
  split at hA
  · rename_i b hb
    cases hA
    left; exact hb
  · split at hA
    · rename_i b hb
      cases hA
      right; exact hb
    · cases hA

/-- The text before a colon of an address literal is not an IPv4 literal. -/
theorem literal_split_not_inet (A P R : List Char) (a : sockaddr)
    (hA : _sockaddr_from_string (some A) (-1) = some a) (e : A = P ++ ':' :: R) :
    inet_pton4 P = none := by
  cases hP : inet_pton4 P with
  | none => rfl
  | some b =>
    exfalso
    have hdot : '.' ∈ P := by
      by_contra hn
      rw [inet_pton4_no_dot P hn] at hP
      cases hP
    obtain ⟨pre, post, e2⟩ := List.append_of_mem hdot
    rcases literal_cases A a hA with h4 | h6
    · rcases inet_pton4_chars _ _ h4 ':' (by rw [e]; simp) with h' | h'
      · exact absurd h' (by decide)
      · exact absurd h' (by decide)
    · have e3 : A = pre ++ '.' :: (post ++ ':' :: R) := by
        rw [e, e2]; simp
      rcases inet_pton6_after_dot _ _ h6 pre _ e3 ':' (by simp) with h' | h'
      · exact absurd h' (by decide)
      · exact absurd h' (by decide)

theorem literal_head (A : List Char) (a : sockaddr)
    (hA : _sockaddr_from_string (some A) (-1) = some a) (S : List Char) :
    (A ++ S).head? ≠ some '[' := by
  cases A with
  | nil => rw [empty_not_literal] at hA; cases hA
  | cons x A =>
    intro h
    simp only [List.cons_append, List.head?_cons, Option.some.injEq] at h
    exact literal_no_bracket _ a hA (by rw [h]; exact List.mem_cons_self _ _)

/-- After an address literal and a slash the port step never accepts an address. -/
theorem ignore_port_after_slash (A S : List Char) (a : sockaddr) (url : pxURL)
    (dst : Option sockaddr) (hA : _sockaddr_from_string (some A) (-1) = some a) :
    _ignore_port url dst (A ++ '/' :: S) = false := by
  rcases ignore_port_cases url dst (A ++ '/' :: S) with h | ⟨k, port, ign, hk, _, _, hi, hacc, _⟩
  · exact h
  · exfalso
    rcases hacc with hfam | hhead
    · obtain ⟨pre, post, e, hl, _⟩ := strrchr_some _ _ _ hk
      have htake : List.take k (A ++ '/' :: S) = pre := by
        rw [e, ← hl]; simp
      rw [sockaddr_from_string_len, htake] at hi
      have h4 : ign.sa_family = AF_INET := by
        rcases sockaddr_from_string_family _ _ _ hi with h | h
        · exact h
        · exact absurd h hfam
      have hp4 := literal_inet pre ign hi h4
      rcases List.append_eq_append_iff.1 e with ⟨t, e1, e2⟩ | ⟨t, e1, e2⟩
      · cases t with
        | nil =>
          simp only [List.nil_append] at e2
          cases e2
        | cons x t =>
          simp only [List.cons_append, List.cons.injEq] at e2
          have hx : x = '/' := e2.1.symm
          rcases inet_pton4_chars _ _ hp4 '/' (by rw [e1, hx]; simp) with h' | h'
          · exact absurd h' (by decide)
          · exact absurd h' (by decide)
      · cases t with
        | nil =>
          simp only [List.nil_append] at e2
          cases e2
        | cons x t =>
          simp only [List.cons_append, List.cons.injEq] at e2
          have hx : x = ':' := e2.1.symm
          rw [hx] at e1
          rw [literal_split_not_inet A pre t a hA e1] at hp4
          cases hp4
    · exact literal_head A a hA _ hhead

/-- A rule `A/M` of two address literals of different families matches nothing. -/
theorem mixed_family_no_match (A M : List Char) (a m D : sockaddr) (q : Nat)
    (hA : _sockaddr_from_string (some A) (-1) = some a)
    (hM : _sockaddr_from_string (some M) (-1) = some m)
    (hf : a.sa_family ≠ m.sa_family) :
    _ignore (dest D q) (some (A ++ '/' :: M)) = some false := by
  have hn : _ignore_network (A ++ '/' :: M) = network_step.fallthrough := by
    rw [ignore_network_literal A M a hA, hM]
    simp only [if_neg hf]
  unfold dest
  rw [ignore_of_fallthrough _ _ (slash_not_literal _ (by simp)) hn,
    ignore_port_after_slash A M a _ _ hA]

/-- C11: for address literals `A` and `M` of different families, `_ignore` on
the rule `A/M` returns false for every destination and port: the network step
is abandoned and the address and port step that follows accepts no address. -/
theorem C11_mixed_family_rule (A M : List Char) (a m D : sockaddr) (q : Nat)
    (hA : _sockaddr_from_string (some A) (-1) = some a)
    (hM : _sockaddr_from_string (some M) (-1) = some m)
    (hf : a.sa_family ≠ m.sa_family) :
    _ignore (dest D q) (some (A ++ '/' :: M)) = some false :=
  mixed_family_no_match A M a m D q hA hM hf

/-- C11 at the rules `1.2.3.4/::1:80` and `1::2:3/255.0.0.0`, whose text around
the last colon could be read as an address and a port. -/
theorem C11_mixed_family_rule_witness :
    _ignore (dest ⟨AF_INET, [1, 2, 3, 4]⟩ 80) (some "1.2.3.4/::1:80".toList) = some false ∧
      _ignore (dest ⟨AF_INET6, [0, 1, 0, 0, 0, 0, 0, 0, 0, 0, 0, 0, 0, 0, 0, 2]⟩ 3)
        (some "1::2:3/255.0.0.0".toList) = some false :=
  ⟨C11_mixed_family_rule "1.2.3.4".toList "::1:80".toList ⟨AF_INET, [1, 2, 3, 4]⟩
     ⟨AF_INET6, [0, 0, 0, 0, 0, 0, 0, 0, 0, 0, 0, 0, 0, 1, 0, 128]⟩ ⟨AF_INET, [1, 2, 3, 4]⟩ 80
     (by decide) (by decide) (by decide),
   C11_mixed_family_rule "1::2:3".toList "255.0.0.0".toList
     ⟨AF_INET6, [0, 1, 0, 0, 0, 0, 0, 0, 0, 0, 0, 0, 0, 2, 0, 3]⟩ ⟨AF_INET, [255, 0, 0, 0]⟩
     ⟨AF_INET6, [0, 1, 0, 0, 0, 0, 0, 0, 0, 0, 0, 0, 0, 0, 0, 2]⟩ 3
     (by decide) (by decide) (by decide)⟩

/-! ## Ports -/

theorem port_rule_no_slash (A : List Char) (a : sockaddr) (p : Nat)
    (hA : _sockaddr_from_string (some A) (-1) = some a) : '/' ∉ port_rule A p := by
  unfold port_rule
  intro hm
  rcases List.mem_append.1 hm with m | m
  · exact literal_no_slash A a hA m
  · rcases List.mem_cons.1 m with e | m2
    · exact absurd e (by decide)
    · exact toDigits_no_char p '/' (by decide) m2

/-- In the rule `A:p` the last colon is the one in front of `p`, and the text
in front of it is `A`. -/
theorem port_rule_split (A : List Char) (p : Nat) :
    strrchr (port_rule A p) ':' = some A.length ∧
      List.drop A.length (port_rule A p) = ':' :: Nat.toDigits 10 p ∧
      _sockaddr_from_string (some (port_rule A p)) (A.length : Int) =
        _sockaddr_from_string (some A) (-1) := by
  unfold port_rule
  refine ⟨strrchr_append A _ ':' (toDigits_no_char p ':' (by decide)), ?_,
    sockaddr_from_string_take A _⟩
  rw [List.drop_append_eq_append_drop]
  simp

/-- A destination port of 0 satisfies no accepted port: the port step yields
false for a destination whose port is 0. -/
theorem ignore_port_dest_zero (url : pxURL) (dst : Option sockaddr) (s : List Char)
    (h0 : px_url_get_port url = 0) : _ignore_port url dst s = false := by
  rcases ignore_port_cases url dst s with h | ⟨k, port, ign, _, _, hpos, _, _, hout⟩
  · exact h
  · rw [hout]
    unfold _ignore_out
    have hp : port ≠ 0 := by omega
    simp only [ne_eq, hp, not_false_eq_true, if_true, h0]
    have : (port == 0) = false := by simpa using hp
    rw [this]
    rfl

/-- C13: for an IPv4 literal `A`, `_ignore` on the rule `A:0` returns false for
every destination and port; so it does on `[L]:0` for every text `L`, and so
for every IPv6 literal. -/
theorem C13_port_zero_rule (A L : List Char) (a D : sockaddr) (q : Nat)
    (hA : _sockaddr_from_string (some A) (-1) = some a) (h4 : a.sa_family = AF_INET) :
    _ignore (dest D q) (some (port_rule A 0)) = some false ∧
      _ignore (dest D q) (some (port_rule ('[' :: (L ++ [']'])) 0)) = some false := by
  refine ⟨?_, ?_⟩
  · unfold dest
    have hw : _sockaddr_from_string (some (port_rule A 0)) (-1) = none :=
      inet_colon_not_literal A _ a hA h4
    rw [ignore_of_fallthrough _ _ hw
      (ignore_network_no_slash _ (port_rule_no_slash A a 0 hA))]
    congr 1
    rcases ignore_port_cases ⟨some D, q⟩ (px_url_get_ip_no_dns ⟨some D, q⟩) (port_rule A 0)
      with h | ⟨k, port, ign, hk, hs, hpos, _, _, _⟩
    · exact h
    · exfalso
      obtain ⟨h1, h2, _⟩ := port_rule_split A 0
      rw [h1] at hk
      cases hk
      rw [h2, sscanf_colon_u_toDigits 0 (by decide)] at hs
      cases hs
      exact absurd hpos (by decide)
  · exact bracket_rule_never_matches _ _

/-- C13 at the rules `192.168.1.5:0` and `[::1]:0` with destinations of the
same address and port 0. -/
theorem C13_port_zero_rule_witness :
    port_rule "192.168.1.5".toList 0 = "192.168.1.5:0".toList ∧
      port_rule ('[' :: ("::1".toList ++ [']'])) 0 = "[::1]:0".toList ∧
      _ignore (dest ⟨AF_INET, [192, 168, 1, 5]⟩ 0) (some (port_rule "192.168.1.5".toList 0))
        = some false ∧
      _ignore (dest ⟨AF_INET, [192, 168, 1, 5]⟩ 0)
        (some (port_rule ('[' :: ("::1".toList ++ [']'])) 0)) = some false :=
  ⟨by decide, by decide,
   C13_port_zero_rule "192.168.1.5".toList "::1".toList ⟨AF_INET, [192, 168, 1, 5]⟩
     ⟨AF_INET, [192, 168, 1, 5]⟩ 0 (by decide) rfl⟩

/-- C14: for an address literal `A` and any decimal `p`, when the rule `A:p` is
left to the address and port step (it is not itself an address literal),
`_ignore` returns false for every destination whose port is 0, whatever its
address. -/
theorem C14_destination_port_zero (A : List Char) (a D : sockaddr) (p : Nat)
    (hA : _sockaddr_from_string (some A) (-1) = some a)
    (hw : _sockaddr_from_string (some (port_rule A p)) (-1) = none) :
    _ignore (dest D 0) (some (port_rule A p)) = some false := by
  unfold dest
  rw [ignore_of_fallthrough _ _ hw (ignore_network_no_slash _ (port_rule_no_slash A a p hA)),
    ignore_port_dest_zero ⟨some D, 0⟩ _ _ rfl]

/-- C14 at the rules `1.2.3.4:0` and `1.2.3.4:80` and the destination 1.2.3.4
port 0. -/
theorem C14_destination_port_zero_witness :
    _ignore (dest ⟨AF_INET, [1, 2, 3, 4]⟩ 0) (some (port_rule "1.2.3.4".toList 0))
        = some false ∧
      _ignore (dest ⟨AF_INET, [1, 2, 3, 4]⟩ 0) (some (port_rule "1.2.3.4".toList 80))
        = some false :=
  ⟨C14_destination_port_zero "1.2.3.4".toList ⟨AF_INET, [1, 2, 3, 4]⟩ ⟨AF_INET, [1, 2, 3, 4]⟩ 0
     (by decide) (by decide),
   C14_destination_port_zero "1.2.3.4".toList ⟨AF_INET, [1, 2, 3, 4]⟩ ⟨AF_INET, [1, 2, 3, 4]⟩ 80
     (by decide) (by decide)⟩

/-- C15: for an IPv6 literal `L` without brackets and a decimal `p`, when the
text `L:p` is not itself an address literal, `_ignore` on the rule `L:p`
returns false for every destination, also for the one with address `L` and
port `p`. -/
theorem C15_unbracketed_inet6_port (L : List Char) (a D : sockaddr) (p q : Nat)
    (hL : _sockaddr_from_string (some L) (-1) = some a) (h6 : a.sa_family = AF_INET6)
    (hw : _sockaddr_from_string (some (port_rule L p)) (-1) = none) :
    _ignore (dest D q) (some (port_rule L p)) = some false := by
  unfold dest
  rw [ignore_of_fallthrough _ _ hw (ignore_network_no_slash _ (port_rule_no_slash L a p hL))]
  congr 1
  rcases ignore_port_cases ⟨some D, q⟩ (px_url_get_ip_no_dns ⟨some D, q⟩) (port_rule L p)
    with h | ⟨k, port, ign, hk, _, _, hi, hacc, _⟩
  · exact h
  · exfalso
    obtain ⟨h1, _, h3⟩ := port_rule_split L p
    rw [h1] at hk
    cases hk
    rw [h3, hL] at hi
    cases hi
    rcases hacc with hfam | hhead
    · exact hfam h6
    · exact literal_head L _ hL _ hhead

/-- C15 at the rule `1:2:3:4:5:6:7:8:80` and the destination 1:2:3:4:5:6:7:8
port 80. -/
theorem C15_unbracketed_inet6_port_witness :
    port_rule "1:2:3:4:5:6:7:8".toList 80 = "1:2:3:4:5:6:7:8:80".toList ∧
      _ignore (dest ⟨AF_INET6, [0, 1, 0, 2, 0, 3, 0, 4, 0, 5, 0, 6, 0, 7, 0, 8]⟩ 80)
        (some (port_rule "1:2:3:4:5:6:7:8".toList 80)) = some false :=
  ⟨by decide,
   C15_unbracketed_inet6_port "1:2:3:4:5:6:7:8".toList
     ⟨AF_INET6, [0, 1, 0, 2, 0, 3, 0, 4, 0, 5, 0, 6, 0, 7, 0, 8]⟩
     ⟨AF_INET6, [0, 1, 0, 2, 0, 3, 0, 4, 0, 5, 0, 6, 0, 7, 0, 8]⟩ 80 80
     (by decide) rfl (by decide)⟩

/-! ## Rules that no step accepts -/

/-- C16: when the whole rule text is not an address literal, the network step
yields no address with a mask of its family and the address and port step
accepts no address, `_ignore` returns false (a defined result) for every
destination; a missing rule or a missing destination gives false as well. -/
theorem C16_unparseable_rule (s : List Char) (url : pxURL)
    (hw : _sockaddr_from_string (some s) (-1) = none)
    (hn : _ignore_network s = network_step.fallthrough)
    (hp : ∀ k port ign, strrchr s ':' = some k → sscanf_colon_u (s.drop k) = some port →
      0 < port → _sockaddr_from_string (some s) (k : Int) = some ign →
      ign.sa_family = AF_INET6 ∧ s.head? ≠ some '[') :
    _ignore (some url) (some s) = some false ∧
      _ignore none (some s) = some false ∧
      _ignore (some url) none = some false := by
  refine ⟨?_, rfl, rfl⟩
  rw [ignore_of_fallthrough _ _ hw hn]
  congr 1
  rcases ignore_port_cases url (px_url_get_ip_no_dns url) s
    with h | ⟨k, port, ign, hk, hs, hpos, hi, hacc, _⟩
  · exact h
  · exfalso
    obtain ⟨h6, hh⟩ := hp k port ign hk hs hpos hi
    rcases hacc with hfam | hhead
    · exact hfam h6
    · exact hh hhead

/-- C16 at the rules `example.com`, `1.2.3.4/`, `1.2.3.4/abc`, `1.2.3.4:` and
`1.2.3.4:abc` with the destination 1.2.3.4 port 80. -/
theorem C16_unparseable_rule_witness :
    _ignore (dest ⟨AF_INET, [1, 2, 3, 4]⟩ 80) (some "example.com".toList) = some false ∧
      _ignore (dest ⟨AF_INET, [1, 2, 3, 4]⟩ 80) (some "1.2.3.4/".toList) = some false ∧
      _ignore (dest ⟨AF_INET, [1, 2, 3, 4]⟩ 80) (some "1.2.3.4/abc".toList) = some false ∧
      _ignore (dest ⟨AF_INET, [1, 2, 3, 4]⟩ 80) (some "1.2.3.4:".toList) = some false ∧
      _ignore (dest ⟨AF_INET, [1, 2, 3, 4]⟩ 80) (some "1.2.3.4:abc".toList) = some false :=
  ⟨(C16_unparseable_rule "example.com".toList ⟨some ⟨AF_INET, [1, 2, 3, 4]⟩, 80⟩
      (by decide) (by decide)
      (fun k port ign hk _ _ _ => by
        have h : strrchr "example.com".toList ':' = none := by decide
        rw [h] at hk; cases hk)).1,
   (C16_unparseable_rule "1.2.3.4/".toList ⟨some ⟨AF_INET, [1, 2, 3, 4]⟩, 80⟩
      (by decide) (by decide)
      (fun k port ign hk _ _ _ => by
        have h : strrchr "1.2.3.4/".toList ':' = none := by decide
        rw [h] at hk; cases hk)).1,
   (C16_unparseable_rule "1.2.3.4/abc".toList ⟨some ⟨AF_INET, [1, 2, 3, 4]⟩, 80⟩
      (by decide) (by decide)
      (fun k port ign hk _ _ _ => by
        have h : strrchr "1.2.3.4/abc".toList ':' = none := by decide
        rw [h] at hk; cases hk)).1,
   (C16_unparseable_rule "1.2.3.4:".toList ⟨some ⟨AF_INET, [1, 2, 3, 4]⟩, 80⟩
      (by decide) (by decide)
      (fun k port ign hk hs _ _ => by
        have h : strrchr "1.2.3.4:".toList ':' = some 7 := by decide
        rw [h] at hk; cases hk
        have h2 : sscanf_colon_u (List.drop 7 "1.2.3.4:".toList) = none := by decide
        rw [h2] at hs; cases hs)).1,
   (C16_unparseable_rule "1.2.3.4:abc".toList ⟨some ⟨AF_INET, [1, 2, 3, 4]⟩, 80⟩
      (by decide) (by decide)
      (fun k port ign hk hs _ _ => by
        have h : strrchr "1.2.3.4:abc".toList ':' = some 7 := by decide
        rw [h] at hk; cases hk
        have h2 : sscanf_colon_u (List.drop 7 "1.2.3.4:abc".toList) = none := by decide
        rw [h2] at hs; cases hs)).1⟩

/-! ## The comparison helper, characterised -/

/-- C17: `_sockaddr_equals` returns true exactly when both addresses are
present, have the same family, that family is IPv4 or IPv6, the mask (when
present) has that family, and on every byte below the width of the family the
addresses agree, under the mask when there is one; so the early exit of the
loop gives the result of the comparison of all bytes. -/
theorem C17_sockaddr_equals_iff (ip_a ip_b nm : Option sockaddr) :
    _sockaddr_equals ip_a ip_b nm = true ↔
      ∃ a b, ip_a = some a ∧ ip_b = some b ∧ a.sa_family = b.sa_family ∧
        (a.sa_family = AF_INET ∨ a.sa_family = AF_INET6) ∧
        (∀ m, nm = some m → m.sa_family = a.sa_family) ∧
        ∀ i, i < addr_bytes a.sa_family →
          match nm with
          | some m => a.byte i &&& m.byte i = b.byte i &&& m.byte i
          | none => a.byte i = b.byte i := by
  cases ip_a with
  | none => simp [_sockaddr_equals]
  | some a =>
    cases ip_b with
    | none => simp [_sockaddr_equals]
    | some b =>
      simp only [Option.some.injEq, exists_and_left, exists_eq_left']
      unfold _sockaddr_equals
      by_cases hf : a.sa_family = b.sa_family
      · cases nm with
        | none =>
          by_cases h4 : a.sa_family = AF_INET
          · have hb4 : b.sa_family = AF_INET := hf.symm.trans h4
            simp [h4, hb4, sockaddr_equals_loop_iff, addr_bytes, sockaddr.byte]
          · by_cases h6 : a.sa_family = AF_INET6
            · have hb6 : b.sa_family = AF_INET6 := hf.symm.trans h6
              simp [h6, hb6, sockaddr_equals_loop_iff, addr_bytes, sockaddr.byte]
            · simp [h4, h6]
        | some m =>
          by_cases hm : a.sa_family = m.sa_family
          · by_cases h4 : a.sa_family = AF_INET
            · have hm4 : m.sa_family = AF_INET := hm.symm.trans h4
              have hb4 : b.sa_family = AF_INET := hf.symm.trans h4
              simp [h4, hm4, hb4, sockaddr_equals_loop_iff, addr_bytes, sockaddr.byte]
            · by_cases h6 : a.sa_family = AF_INET6
              · have hm6 : m.sa_family = AF_INET6 := hm.symm.trans h6
                have hb6 : b.sa_family = AF_INET6 := hf.symm.trans h6
                simp [h6, hm6, hb6, sockaddr_equals_loop_iff, addr_bytes, sockaddr.byte]
              · simp [h4, h6]
          · have hm2 : ¬ m.sa_family = a.sa_family := fun e => hm e.symm
            simp [hm, hm2]
      · simp [hf]

/-! ## No match across families -/

/-- When `_sockaddr_equals` has a result for a mask with undefined bytes, it is
the result for every mask of that family: the mask bytes were not read. -/
theorem sockaddr_equals_undefined_mask_sound (ip_a ip_b : Option sockaddr) (f : Nat)
    (r : Bool) (h : _sockaddr_equals_undefined_mask ip_a ip_b f = some r) (M : List Nat) :
    _sockaddr_equals ip_a ip_b (some ⟨f, M⟩) = r := by
  unfold _sockaddr_equals_undefined_mask at h
  unfold _sockaddr_equals
  cases ip_a with
  | none => simp at h; simp [h]
  | some a =>
    cases ip_b with
    | none => simp at h; simp [h]
    | some b =>
      obtain ⟨fa, da⟩ := a
      obtain ⟨fb, db⟩ := b
      simp only at h ⊢
      by_cases h1 : fa = fb
      · subst h1
        by_cases h2 : fa = f
        · subst h2
          by_cases h4 : fa = AF_INET
          · simp [h4] at h
          · by_cases h6 : fa = AF_INET6
            · simp [h6] at h
            · simp [h4, h6] at h
              simp [h4, h6, h]
        · simp [h2] at h
          simp [h2, h]
      · simp [h1] at h
        simp [h1, h]

theorem sockaddr_equals_family (D a : sockaddr) (nm : Option sockaddr)
    (h : D.sa_family ≠ a.sa_family) : _sockaddr_equals (some D) (some a) nm = false := by
  unfold _sockaddr_equals
  simp [h]

/-- A text with a colon that is an address literal is an IPv6 literal. -/
theorem colon_literal_inet6 (s : List Char) (L : sockaddr) (hc : ':' ∈ s)
    (h : _sockaddr_from_string (some s) (-1) = some L) : L.sa_family = AF_INET6 := by
  rcases sockaddr_from_string_family _ _ _ h with h4 | h6
  · have := literal_inet s L h h4
    rcases inet_pton4_chars _ _ this ':' hc with h' | h'
    · exact absurd h' (by decide)
    · exact absurd h' (by decide)
  · exact h6

/-- The rule `A:p` of an address literal `A` and a decimal `p` never matches a
destination of another family than `A`. -/
theorem port_rule_cross_family (A : List Char) (a D : sockaddr) (p q : Nat)
    (hA : _sockaddr_from_string (some A) (-1) = some a) (hD : D.sa_family ≠ a.sa_family) :
    _ignore (dest D q) (some (port_rule A p)) = some false := by
  cases hw : _sockaddr_from_string (some (port_rule A p)) (-1) with
  | some L =>
    have hL6 : L.sa_family = AF_INET6 := colon_literal_inet6 _ L (by simp [port_rule]) hw
    have ha6 : a.sa_family = AF_INET6 := by
      rcases sockaddr_from_string_family _ _ _ hA with h4 | h6
      · have hnone : _sockaddr_from_string (some (port_rule A p)) (-1) = none :=
          inet_colon_not_literal A _ a hA h4
        rw [hnone] at hw
        cases hw
      · exact h6
    rw [bare_address_rule _ L D q hw]
    congr 1
    rw [decide_eq_false_iff_not]
    intro h
    exact hD (h.1.trans (hL6.trans ha6.symm))
  | none =>
    unfold dest
    rw [ignore_of_fallthrough _ _ hw
      (ignore_network_no_slash _ (port_rule_no_slash A a p hA))]
    congr 1
    rcases ignore_port_cases ⟨some D, q⟩ (px_url_get_ip_no_dns ⟨some D, q⟩) (port_rule A p)
      with h | ⟨k, port, ign, hk, _, _, hi, _, hout⟩
    · exact h
    · obtain ⟨h1, _, h3⟩ := port_rule_split A p
      rw [h1] at hk
      cases hk
      rw [h3, hA] at hi
      cases hi
      rw [hout]
      unfold _ignore_out
      simp only [px_url_get_ip_no_dns, sockaddr_equals_family D _ none hD, Bool.and_false,
        ite_self]

/-- The outcomes of the network step on `A/S` for an address literal `A`: the
address of a candidate is the one `A` parses to. -/
theorem ignore_network_literal_cases (A S : List Char) (a : sockaddr)
    (hA : _sockaddr_from_string (some A) (-1) = some a) :
    _ignore_network (A ++ '/' :: S) = network_step.fallthrough ∨
      (∃ net, _ignore_network (A ++ '/' :: S) = network_step.candidate a net) ∨
      _ignore_network (A ++ '/' :: S) = network_step.undefined_mask a := by
  rw [ignore_network_literal A S a hA]
  cases _sockaddr_from_string (some S) (-1) with
  | some m =>
    simp only
    by_cases hf : a.sa_family = m.sa_family
    · rw [if_pos hf]; right; left; exact ⟨m, rfl⟩
    · rw [if_neg hf]; left; rfl
  | none =>
    simp only
    cases sscanf_d S with
    | none => left; rfl
    | some cidr =>
      simp only
      cases _sockaddr_from_cidr a.sa_family (cidr % 256) with
      | none => right; right; rfl
      | some net =>
        cases net with
        | none => left; rfl
        | some net =>
          simp only
          by_cases hf : a.sa_family = net.sa_family
          · rw [if_pos hf]; right; left; exact ⟨net, rfl⟩
          · rw [if_neg hf]; left; rfl

/-- A rule `A/S` of an address literal `A` and any text `S` never matches a
destination of another family than `A`, also when the mask bytes are undefined. -/
theorem network_rule_cross_family (A S : List Char) (a D : sockaddr) (q : Nat)
    (hA : _sockaddr_from_string (some A) (-1) = some a) (hD : D.sa_family ≠ a.sa_family) :
    _ignore (dest D q) (some (A ++ '/' :: S)) = some false := by
  rcases ignore_network_literal_cases A S a hA with h | ⟨net, h⟩ | h
  · unfold dest
    rw [ignore_of_fallthrough _ _ (slash_not_literal _ (by simp)) h,
      ignore_port_after_slash A S a _ _ hA]
  · rw [ignore_of_network _ (by simp) a net D q h, sockaddr_equals_family D a _ hD]
  · rw [ignore_of_network_undefined _ (by simp) a D q h]
    unfold _sockaddr_equals_undefined_mask
    simp only [ne_eq, hD, not_false_eq_true, if_true]

/-- The rule `A/n` of an address literal `A` and a decimal `n` of any size
never matches a destination of another family than `A`. -/
theorem cidr_rule_cross_family (A : List Char) (a D : sockaddr) (n q : Nat)
    (hA : _sockaddr_from_string (some A) (-1) = some a) (hD : D.sa_family ≠ a.sa_family) :
    _ignore (dest D q) (some (cidr_rule A n)) = some false :=
  network_rule_cross_family A (Nat.toDigits 10 n) a D q hA hD

/-- C12: for an address literal `A` and a destination of another family than
`A`, `_ignore` returns false on the bare rule `A`, on every network rule `A/M`
with an address literal `M` and `A/n` with a decimal `n`, and on every rule
`A:p` with a decimal `p`. -/
theorem C12_no_cross_family_match (A : List Char) (a D : sockaddr) (q : Nat)
    (hA : _sockaddr_from_string (some A) (-1) = some a) (hD : D.sa_family ≠ a.sa_family) :
    _ignore (dest D q) (some A) = some false ∧
      (∀ M m, _sockaddr_from_string (some M) (-1) = some m →
        _ignore (dest D q) (some (A ++ '/' :: M)) = some false) ∧
      (∀ n, _ignore (dest D q) (some (cidr_rule A n)) = some false) ∧
      (∀ p, _ignore (dest D q) (some (port_rule A p)) = some false) := by
  refine ⟨?_, ?_, ?_, ?_⟩
  · rw [bare_address_rule A a D q hA]
    congr 1
    rw [decide_eq_false_iff_not]
    exact fun h => hD h.1
  · intro M m hM
    by_cases hf : a.sa_family = m.sa_family
    · have hnet : _ignore_network (A ++ '/' :: M) = network_step.candidate a m := by
        rw [ignore_network_literal A M a hA, hM]
        simp only [if_pos hf]
      rw [ignore_of_network _ (by simp) a m D q hnet, sockaddr_equals_family D a _ hD]
    · exact mixed_family_no_match A M a m D q hA hM hf
  · intro n
    exact cidr_rule_cross_family A a D n q hA hD
  · intro p
    exact port_rule_cross_family A a D p q hA hD

/-- C12 at the rule `::ffff:1.2.3.4` with the IPv4 destination 1.2.3.4, and at
the rules `1.2.3.4/0` and `1.2.3.4/2147483656` with the IPv6 destination
::ffff:1.2.3.4. -/
theorem C12_no_cross_family_match_witness :
    cidr_rule "1.2.3.4".toList 0 = "1.2.3.4/0".toList ∧
      cidr_rule "1.2.3.4".toList 2147483656 = "1.2.3.4/2147483656".toList ∧
      _ignore (dest ⟨AF_INET, [1, 2, 3, 4]⟩ 80) (some "::ffff:1.2.3.4".toList) = some false ∧
      _ignore (dest ⟨AF_INET6, [0, 0, 0, 0, 0, 0, 0, 0, 0, 0, 255, 255, 1, 2, 3, 4]⟩ 80)
        (some (cidr_rule "1.2.3.4".toList 0)) = some false ∧
      _ignore (dest ⟨AF_INET6, [0, 0, 0, 0, 0, 0, 0, 0, 0, 0, 255, 255, 1, 2, 3, 4]⟩ 80)
        (some (cidr_rule "1.2.3.4".toList 2147483656)) = some false :=
  ⟨by decide, by decide,
   (C12_no_cross_family_match "::ffff:1.2.3.4".toList
      ⟨AF_INET6, [0, 0, 0, 0, 0, 0, 0, 0, 0, 0, 255, 255, 1, 2, 3, 4]⟩
      ⟨AF_INET, [1, 2, 3, 4]⟩ 80 (by decide) (by decide)).1,
   (C12_no_cross_family_match "1.2.3.4".toList ⟨AF_INET, [1, 2, 3, 4]⟩
      ⟨AF_INET6, [0, 0, 0, 0, 0, 0, 0, 0, 0, 0, 255, 255, 1, 2, 3, 4]⟩ 80
      (by decide) (by decide)).2.2.1 0,
   (C12_no_cross_family_match "1.2.3.4".toList ⟨AF_INET, [1, 2, 3, 4]⟩
      ⟨AF_INET6, [0, 0, 0, 0, 0, 0, 0, 0, 0, 0, 255, 255, 1, 2, 3, 4]⟩ 80
      (by decide) (by decide)).2.2.1 2147483656⟩

/-! ## Relations between prefix rules -/

/-- C19: the bits of the rule address behind the prefix are ignored: for IPv4
literals `A` and `B` that agree on their leading `n` bits, `1 ≤ n ≤ 32`, the
rules `A/n` and `B/n` give the same result for every destination, and so do
IPv6 literals with `n ≤ 128`. -/
theorem C19_host_bits_ignored (A B : List Char) (a b D : sockaddr) (n q : Nat)
    (hA : _sockaddr_from_string (some A) (-1) = some a)
    (hB : _sockaddr_from_string (some B) (-1) = some b)
    (hab : ∀ j, j < n → a.bit j = b.bit j) :
    (a.sa_family = AF_INET → b.sa_family = AF_INET → 1 ≤ n → n ≤ 32 →
      _ignore (dest D q) (some (cidr_rule A n)) = _ignore (dest D q) (some (cidr_rule B n))) ∧
    (a.sa_family = AF_INET6 → b.sa_family = AF_INET6 → n ≤ 128 →
      _ignore (dest D q) (some (cidr_rule A n)) =
        _ignore (dest D q) (some (cidr_rule B n))) := by
  constructor
  · intro ha hb h1 h32
    have hmod : n % 256 = n := Nat.mod_eq_of_lt (by omega)
    rw [inet_cidr_rule A a D n q hA ha (by omega) (by omega),
      inet_cidr_rule B b D n q hB hb (by omega) (by omega), hmod]
    congr 1
    apply decide_eq_decide.2
    have hmin : min n 32 = n := by omega
    rw [hmin]
    constructor
    · rintro ⟨hf, h⟩
      exact ⟨hf, fun j hj => (h j hj).trans (hab j hj)⟩
    · rintro ⟨hf, h⟩
      exact ⟨hf, fun j hj => (h j hj).trans (hab j hj).symm⟩
  · intro ha hb h128
    have hmod : n % 256 = n := Nat.mod_eq_of_lt (by omega)
    rw [inet6_cidr_rule A a D n q hA ha (by omega),
      inet6_cidr_rule B b D n q hB hb (by omega), hmod]
    congr 1
    apply decide_eq_decide.2
    have hmin : min n 128 = n := by omega
    rw [hmin]
    constructor
    · rintro ⟨hf, h⟩
      exact ⟨hf, fun j hj => (h j hj).trans (hab j hj)⟩
    · rintro ⟨hf, h⟩
      exact ⟨hf, fun j hj => (h j hj).trans (hab j hj).symm⟩

/-- C19 at the rules `192.168.1.77/24` and `192.168.1.0/24` with the
destination 192.168.1.5, which both match. -/
theorem C19_host_bits_ignored_witness :
    cidr_rule "192.168.1.77".toList 24 = "192.168.1.77/24".toList ∧
      _ignore (dest ⟨AF_INET, [192, 168, 1, 5]⟩ 80) (some (cidr_rule "192.168.1.77".toList 24))
        = _ignore (dest ⟨AF_INET, [192, 168, 1, 5]⟩ 80)
            (some (cidr_rule "192.168.1.0".toList 24)) ∧
      _ignore (dest ⟨AF_INET, [192, 168, 1, 5]⟩ 80) (some (cidr_rule "192.168.1.0".toList 24))
        = some true :=
  ⟨by decide,
   (C19_host_bits_ignored "192.168.1.77".toList "192.168.1.0".toList
      ⟨AF_INET, [192, 168, 1, 77]⟩ ⟨AF_INET, [192, 168, 1, 0]⟩ ⟨AF_INET, [192, 168, 1, 5]⟩
      24 80 (by decide) (by decide) (by decide)).1 rfl rfl (by decide) (by decide),
   by decide⟩

/-- C20: matching is monotone in the prefix length: for an IPv6 literal `A` and
`m ≤ n ≤ 128`, a destination on which `_ignore` returns true for the rule
`A/n` also gets true for the rule `A/m`. -/
theorem C20_prefix_monotone (A : List Char) (a D : sockaddr) (m n q : Nat)
    (hA : _sockaddr_from_string (some A) (-1) = some a) (h6 : a.sa_family = AF_INET6)
    (hmn : m ≤ n) (hn : n ≤ 128)
    (h : _ignore (dest D q) (some (cidr_rule A n)) = some true) :
    _ignore (dest D q) (some (cidr_rule A m)) = some true := by
  rw [inet6_cidr_rule A a D n q hA h6 (by omega)] at h
  rw [inet6_cidr_rule A a D m q hA h6 (by omega)]
  have hmodn : n % 256 = n := Nat.mod_eq_of_lt (by omega)
  have hmodm : m % 256 = m := Nat.mod_eq_of_lt (by omega)
  rw [hmodn] at h
  rw [hmodm]
  simp only [Option.some.injEq, decide_eq_true_eq] at h ⊢
  exact ⟨h.1, fun j hj => h.2 j (by omega)⟩

set_option maxRecDepth 8000 in
/-- C20 at the rules `fe80::1/16` and `fe80::1/10` with the destination
fe80::2. -/
theorem C20_prefix_monotone_witness :
    _ignore (dest ⟨AF_INET6, [254, 128, 0, 0, 0, 0, 0, 0, 0, 0, 0, 0, 0, 0, 0, 2]⟩ 80)
        (some (cidr_rule "fe80::1".toList 16)) = some true ∧
      _ignore (dest ⟨AF_INET6, [254, 128, 0, 0, 0, 0, 0, 0, 0, 0, 0, 0, 0, 0, 0, 2]⟩ 80)
        (some (cidr_rule "fe80::1".toList 10)) = some true :=
  ⟨by decide,
   C20_prefix_monotone "fe80::1".toList
     ⟨AF_INET6, [254, 128, 0, 0, 0, 0, 0, 0, 0, 0, 0, 0, 0, 0, 0, 1]⟩
     ⟨AF_INET6, [254, 128, 0, 0, 0, 0, 0, 0, 0, 0, 0, 0, 0, 0, 0, 2]⟩ 10 16 80
     (by decide) rfl (by decide) (by decide) (by decide)⟩

end IgnoreIp
